import Mathlib

/-!
Verification of the item-based collaborative-filtering recommender in
`recsys` (files `recsys/recommend_user.py`, `recsys/evaluation.py`,
`recsys/utils.py`) against its natural-language specification.

Modelling conventions:
* A pandas rating table is a `List Rating` (rows in frame order).
* Machine floats are modelled as `ℚ`; pandas `NaN` values (which arise from
  `std` with one sample) are modelled by `Option ℚ` with `none` for NaN.
* `sqrt`-valued quantities (the per-user standard deviation and the cosine
  similarity matrix) are irrational in general, so they enter the embedding
  as oracle parameters (`stdOf`, `sim`).  Theorems either hold for every
  oracle or carry a hypothesis (`StdCompat`, `CosCompatible`) stating in
  rational arithmetic that the oracle is exactly the value the source
  computes; concrete counterexamples are chosen so that every consulted
  similarity / std is rational, and the compatibility predicate is checked
  by `decide`.
* `sort_values` (numpy quicksort) is stable for the small frames appearing
  in all concrete statements below (numpy's introsort runs plain insertion
  sort below 17 elements), and is modelled by a stable insertion sort.
-/

namespace RecSys

set_option maxRecDepth 1800

/-- One row of the rating table: columns `user_id`, `product_id`, `rating`
(the timestamp column never reaches the core and is omitted). -/
structure Rating where
  user : ℕ
  product : ℕ
  rating : ℚ
deriving DecidableEq, Repr

/-- `df['user_id']` as a column. -/
def userIds (df : List Rating) : List ℕ := df.map (·.user)

/-- The ratings of one user, in frame order (`df[df['user_id'] == u]['rating']`). -/
def ratingsOf (df : List Rating) (u : ℕ) : List ℚ :=
  (df.filter (fun r => r.user == u)).map (·.rating)

/-- Arithmetic mean of a list (pandas `mean`; `0/0 = 0` for the empty list,
which the source never hits because groups are nonempty). -/
def meanL (l : List ℚ) : ℚ := l.sum / l.length

/-- Per-user mean rating (`groupby('user_id')['rating'].transform('mean')`). -/
def meanU (df : List Rating) (u : ℕ) : ℚ := meanL (ratingsOf df u)

/-- Per-user rating count. -/
def countU (df : List Rating) (u : ℕ) : ℕ := (ratingsOf df u).length

/-- Per-user minimum rating (`transform('min')`); 0 if the user is absent. -/
def minU (df : List Rating) (u : ℕ) : ℚ :=
  match ratingsOf df u with
  | [] => 0
  | x :: xs => xs.foldl min x

/-- Per-user maximum rating (`transform('max')`); 0 if the user is absent. -/
def maxU (df : List Rating) (u : ℕ) : ℚ :=
  match ratingsOf df u with
  | [] => 0
  | x :: xs => xs.foldl max x

/-- Per-user sample variance with `ddof = 1` (the square of pandas
`transform('std')`, which is defined only for `count ≥ 2`). -/
def varU (df : List Rating) (u : ℕ) : ℚ :=
  ((ratingsOf df u).map (fun x => (x - meanU df u) * (x - meanU df u))).sum /
    ((countU df u : ℚ) - 1)

/-- `stdOf` is a faithful oracle for pandas `transform('std')` on `df`:
for every user present with at least two ratings it is the nonnegative
square root of the `ddof = 1` variance.  (For users with fewer ratings the
source produces NaN, modelled separately, so no constraint is imposed.) -/
def StdCompat (df : List Rating) (stdOf : ℕ → ℚ) : Prop :=
  ∀ u ∈ userIds df, 2 ≤ countU df u → 0 ≤ stdOf u ∧ stdOf u * stdOf u = varU df u

instance (df : List Rating) (stdOf : ℕ → ℚ) : Decidable (StdCompat df stdOf) := by
  unfold StdCompat
  exact List.decidableBAll _ _

/-- The normalized value of one rating `r` of user `u`, following
`normalize_ratings_per_user` (utils.py lines 30-53).  `none` models the NaN
produced by `transform('std')` when the user has a single rating
(`NaN.replace(0, 1)` keeps the NaN, and `(r - mean)/NaN` is NaN). -/
def normVal (stdOf : ℕ → ℚ) (df : List Rating) (method : String) (u : ℕ) (r : ℚ) :
    Option ℚ :=
  if method = "mean_center" then
    some (r - meanU df u)
  else if method = "z_score" then
    if countU df u < 2 then none
    else some ((r - meanU df u) / (if stdOf u = 0 then 1 else stdOf u))
  else if method = "min_max" then
    some ((r - minU df u) /
      (if maxU df u - minU df u = 0 then 1 else maxU df u - minU df u))
  else none

/-- Recognized normalization methods; anything else raises
`ValueError` in `normalize_ratings_per_user`. -/
def validMethod (m : String) : Bool :=
  m == "mean_center" || m == "z_score" || m == "min_max"

/-- `normalize_ratings_per_user` (utils.py lines 5-55): returns the frame
with an added `normalized_rating` column, or fails on an unknown method. -/
def normalize_ratings_per_user (stdOf : ℕ → ℚ) (df : List Rating) (method : String) :
    Except Unit (List (Rating × Option ℚ)) :=
  if validMethod method then
    .ok (df.map (fun r => (r, normVal stdOf df method r.user r.rating)))
  else .error ()

/-- `denormalize_rating` (utils.py lines 58-83).  The input is `Option ℚ`
because a NaN normalized value propagates through the float arithmetic. -/
def denormalize_rating (normalized : Option ℚ) (userMean : ℚ) (userStd : ℚ)
    (method : String) : Option ℚ :=
  if method = "mean_center" then normalized.map (· + userMean)
  else if method = "z_score" then normalized.map (fun v => v * userStd + userMean)
  else normalized

/-! ## Recommendation scorer (`recommend_user.py`) -/

/-- Insert into a strictly ascending list of distinct keys. -/
def insSorted (x : ℕ) : List ℕ → List ℕ
  | [] => [x]
  | y :: ys => if x < y then x :: y :: ys else if x = y then y :: ys else y :: insSorted x ys

/-- The distinct `product_id`s of the table in ascending order: the column
index of `df.pivot_table(...)` (pandas sorts column labels). -/
def sortedItems (df : List Rating) : List ℕ :=
  df.foldr (fun r acc => insSorted r.product acc) []

/-- The distinct `user_id`s of the table in ascending order: the row index
of the pivot table. -/
def sortedUsers (df : List Rating) : List ℕ :=
  df.foldr (fun r acc => insSorted r.user acc) []

/-- One cell of `df.pivot_table(index="user_id", columns="product_id",
values=rating_col).fillna(0)` (recommend_user.py lines 51-52): the mean of
the chosen rating column over the `(u, p)` records, NaN values skipped, and
`0` when nothing remains (`fillna`). -/
def cellVal (stdOf : ℕ → ℚ) (df : List Rating) (method : String) (useNorm : Bool)
    (u p : ℕ) : ℚ :=
  let vs := (df.filter (fun r => r.user == u && r.product == p)).filterMap
    (fun r => if useNorm then normVal stdOf df method r.user r.rating else some r.rating)
  if vs.length = 0 then 0 else vs.sum / vs.length

/-- The row index of `matrix`.  `pivot_table` keeps its default
`dropna=True`, which drops every `(user, product)` group whose aggregated
value is NaN *before* unstacking (`fillna(0)` never sees it), so a user
keeps a row iff at least one of their records carries a non-NaN value in
the chosen rating column.  Rows are user ids, ascending (groupby order). -/
def matrixUsers (stdOf : ℕ → ℚ) (df : List Rating) (method : String)
    (useNorm : Bool) : List ℕ :=
  (sortedUsers df).filter (fun u => df.any (fun r =>
    r.user == u &&
      (if useNorm then normVal stdOf df method r.user r.rating
       else some r.rating).isSome))

/-- The column index of `matrix`: by the same `dropna=True`, a product
keeps a column iff at least one of its records carries a non-NaN value
(a column all of whose groups were dropped is absent after `unstack`).
Columns are product ids, ascending. -/
def matrixItems (stdOf : ℕ → ℚ) (df : List Rating) (method : String)
    (useNorm : Bool) : List ℕ :=
  (sortedItems df).filter (fun p => df.any (fun r =>
    r.product == p &&
      (if useNorm then normVal stdOf df method r.user r.rating
       else some r.rating).isSome))

/-- `rated_items = user_ratings[user_ratings > 0].index`
(recommend_user.py line 60), in ascending column order; `user_ratings`
ranges over the pivot's surviving columns. -/
def ratedItems (stdOf : ℕ → ℚ) (df : List Rating) (method : String) (useNorm : Bool)
    (u : ℕ) : List ℕ :=
  (matrixItems stdOf df method useNorm).filter
    (fun p => decide (0 < cellVal stdOf df method useNorm u p))

/-- The contribution stream of the nested scoring loop (recommend_user.py
lines 75-88): for each rated `product` (ascending) and each `other` column
of `sim_df` (the pivot's surviving columns, ascending, `product` dropped),
if the user has not rated `other` (`user_ratings[other] == 0`) and
`sim ≥ min_similarity`, emit `(other, sim * rating, |sim|)`. -/
def contribs (sim : ℕ → ℕ → ℚ) (stdOf : ℕ → ℚ) (df : List Rating) (method : String)
    (useNorm : Bool) (minSim : ℚ) (u : ℕ) : List (ℕ × ℚ × ℚ) :=
  (ratedItems stdOf df method useNorm u).flatMap (fun p =>
    ((matrixItems stdOf df method useNorm).filter (fun o => o != p)).filterMap (fun o =>
      if cellVal stdOf df method useNorm u o = 0 ∧ minSim ≤ sim p o then
        some (o, sim p o * cellVal stdOf df method useNorm u p, |sim p o|)
      else none))

/-- `scores.setdefault(other, 0); scores[other] += s` together with the
parallel `score_weights` update, on an insertion-ordered association list
(a Python dict). -/
def dictAdd (acc : List (ℕ × ℚ × ℚ)) (c : ℕ × ℚ × ℚ) : List (ℕ × ℚ × ℚ) :=
  match acc with
  | [] => [c]
  | (k, s, w) :: rest =>
    if k = c.1 then (k, s + c.2.1, w + c.2.2) :: rest else (k, s, w) :: dictAdd rest c

/-- The `scores` / `score_weights` dictionaries after the loop. -/
def buildDict (cs : List (ℕ × ℚ × ℚ)) : List (ℕ × ℚ × ℚ) := cs.foldl dictAdd []

/-- Association-list lookup on the score dictionary. -/
def lookup2 (d : List (ℕ × ℚ × ℚ)) (k : ℕ) : Option (ℚ × ℚ) :=
  match d with
  | [] => none
  | (k', s, w) :: rest => if k' = k then some (s, w) else lookup2 rest k

/-- The normalization pass `scores[item] /= score_weights[item]` guarded by
`score_weights[item] > 0` (recommend_user.py lines 91-93): an item whose
accumulated weight is not positive keeps its raw accumulated score. -/
def finalScores (d : List (ℕ × ℚ × ℚ)) : List (ℕ × ℚ) :=
  d.map (fun e => (e.1, if 0 < e.2.2 then e.2.1 / e.2.2 else e.2.1))

/-- Stable insertion (descending by score): the new element goes before the
first entry whose score is not larger.  Models pandas
`sort_values("score", ascending=False)`, which runs a stable insertion sort
on the small frames considered here. -/
def insDesc (x : ℕ × ℚ) : List (ℕ × ℚ) → List (ℕ × ℚ)
  | [] => [x]
  | y :: ys => if y.2 ≤ x.2 then x :: y :: ys else y :: insDesc x ys

/-- Stable sort, descending by score. -/
def sortDesc (l : List (ℕ × ℚ)) : List (ℕ × ℚ) := l.foldr insDesc []

/-- One row of the returned recommendation frame.  `estimated` is `Option ℚ`
because the float pipeline can in principle produce NaN. -/
structure RecRow where
  product : ℕ
  score : ℚ
  estimated : Option ℚ
deriving DecidableEq, Repr

/-- `clip(0.5, 5.0)` (recommend_user.py line 120). -/
def clipQ (x : ℚ) : ℚ := min 5 (max (1 / 2) x)

/-- The `estimated_rating` of one recommendation row (recommend_user.py
lines 103-120): denormalization by the target user's statistics when
normalization was used, then clipping.  For `z_score` the user's std is
`get_user_statistics(df[df['user_id'] == user_id])['std_rating']`, which is
NaN (here `none`) when the user has fewer than two ratings. -/
def estimateRow (stdOf : ℕ → ℚ) (df : List Rating) (method : String) (useNorm : Bool)
    (u : ℕ) (score : ℚ) : Option ℚ :=
  if useNorm then
    if method = "mean_center" then some (clipQ (score + meanU df u))
    else if method = "z_score" then
      if countU df u < 2 then none
      else some (clipQ (score * stdOf u + meanU df u))
    else some (clipQ score)
  else some (clipQ score)

/-- `get_popular_items` (recommend_user.py lines 125-157): group by product
(ascending), keep products with at least `min_ratings` ratings, sort by
mean rating descending (stable), take `n`; `score` and `estimated_rating`
are both the raw mean, not clipped. -/
def get_popular_items (df : List Rating) (n : ℕ) (minRatings : ℕ := 5) : List RecRow :=
  let stats := (sortedItems df).filterMap (fun p =>
    let rs := (df.filter (fun r => r.product == p)).map (·.rating)
    if minRatings ≤ rs.length then some (p, meanL rs) else none)
  ((sortDesc stats).take n).map (fun pm => ⟨pm.1, pm.2, some pm.2⟩)

deriving instance DecidableEq for Except

/-- Failure modes of `recommend_for_user`: the first two are `ValueError`
in the source, distinguished by their message (`User ... not found` versus
`Unknown normalization method`); `keyError` is the `KeyError` that
`matrix.loc[user_id]` (line 59) raises when the user's row was dropped
from the pivot (every value of the user NaN).  (When *every* row is
dropped, sklearn's `cosine_similarity` on the empty matrix raises a
`ValueError` at line 55 first; both uncaught exceptions are modelled by
this constructor, and no claim distinguishes them.) -/
inductive RecError where
  | unknownUser
  | invalidConfig
  | keyError
deriving DecidableEq, Repr

/-- `recommend_for_user` (recommend_user.py lines 6-122).  `sim` is the
item-item cosine-similarity oracle (line 55; see `CosCompatible`), `stdOf`
the per-user std oracle used by z-score normalization. -/
def recommend_for_user (sim : ℕ → ℕ → ℚ) (stdOf : ℕ → ℚ) (df : List Rating)
    (user : ℕ) (n : ℕ := 10) (minSim : ℚ := 1 / 10) (useNorm : Bool := false)
    (method : String := "mean_center") : Except RecError (List RecRow) :=
  if user ∉ userIds df then .error .unknownUser
  else if useNorm && !validMethod method then .error .invalidConfig
  else if user ∉ matrixUsers stdOf df method useNorm then .error .keyError
  else
    let rated := ratedItems stdOf df method useNorm user
    if rated = [] then .ok (get_popular_items df n)
    else
      let d := buildDict (contribs sim stdOf df method useNorm minSim user)
      if d = [] then .ok []
      else
        ((sortDesc (finalScores d)).take n).map
          (fun pr => ⟨pr.1, pr.2, estimateRow stdOf df method useNorm user pr.2⟩)
          |> .ok

/-- Dot product of two item columns of the (zero-filled) user-item matrix,
over the row index of the pivot table. -/
def colDot (stdOf : ℕ → ℚ) (df : List Rating) (method : String) (useNorm : Bool)
    (p q : ℕ) : ℚ :=
  ((sortedUsers df).map (fun u =>
    cellVal stdOf df method useNorm u p * cellVal stdOf df method useNorm u q)).sum

/-- `sim` agrees with `sklearn.metrics.pairwise.cosine_similarity` of the
item columns of the matrix: writing `d` for the dot product and `a`, `b`
for the squared norms, the cosine is `d / (√a·√b)`, characterized in
rational arithmetic by `sim² · a · b = d²` with the sign of `d` (and `0`
when a column is all-zero, as sklearn maps zero vectors to zero).
Decidable on concrete data. -/
def CosCompatible (sim : ℕ → ℕ → ℚ) (stdOf : ℕ → ℚ) (df : List Rating)
    (method : String) (useNorm : Bool) : Prop :=
  ∀ p ∈ sortedItems df, ∀ q ∈ sortedItems df,
    let d := colDot stdOf df method useNorm p q
    let a := colDot stdOf df method useNorm p p
    let b := colDot stdOf df method useNorm q q
    if a = 0 ∨ b = 0 then sim p q = 0
    else sim p q * sim p q * (a * b) = d * d ∧ (0 ≤ sim p q ↔ 0 ≤ d)

instance (sim : ℕ → ℕ → ℚ) (stdOf : ℕ → ℚ) (df : List Rating) (method : String)
    (useNorm : Bool) : Decidable (CosCompatible sim stdOf df method useNorm) := by
  unfold CosCompatible
  exact List.decidableBAll _ _

/-- `precision_at_k` (evaluation.py lines 116-142): hits in the top-k slice
divided by `k`, with `k = 0` special-cased to `0`. -/
def precision_at_k (recommended : List ℕ) (relevant : Finset ℕ) (k : ℕ) : ℚ :=
  if k = 0 then 0
  else (((recommended.take k).filter (fun i => decide (i ∈ relevant))).length : ℚ) / k

/-- `recall_at_k` (evaluation.py lines 145-171): hits in the top-k slice
divided by the number of relevant items, `0` when there are none. -/
def recall_at_k (recommended : List ℕ) (relevant : Finset ℕ) (k : ℕ) : ℚ :=
  if relevant.card = 0 then 0
  else (((recommended.take k).filter (fun i => decide (i ∈ relevant))).length : ℚ) /
    relevant.card

/-- `f1_score_at_k` (evaluation.py lines 174-198). -/
def f1_score_at_k (recommended : List ℕ) (relevant : Finset ℕ) (k : ℕ) : ℚ :=
  let p := precision_at_k recommended relevant k
  let r := recall_at_k recommended relevant k
  if p + r = 0 then 0 else 2 * (p * r) / (p + r)

/-! ## Evaluation harness (`evaluation.py`) -/

/-- `calculate_mae` (evaluation.py lines 92-113) over paired sequences. -/
def calculate_mae (actual predicted : List ℚ) : ℚ :=
  meanL ((actual.zip predicted).map (fun ap => |ap.1 - ap.2|))

/-- The square of `calculate_rmse` (evaluation.py lines 67-89), i.e. the
mean squared error; the source additionally takes the (irrational) square
root, which is strictly monotone and does not affect which records
contribute. -/
def calculate_rmse_sq (actual predicted : List ℚ) : ℚ :=
  meanL ((actual.zip predicted).map (fun ap => (ap.1 - ap.2) ^ 2))

/-- `test_df['user_id'].unique()`: distinct users in first-occurrence order. -/
def uniqueUsers (df : List Rating) : List ℕ :=
  df.foldl (fun acc r => if r.user ∈ acc then acc else acc ++ [r.user]) []

/-- A user's relevant items: test products the user rated at least at the
relevance threshold (evaluation.py lines 237-240). -/
def relevantItems (test : List Rating) (thr : ℚ) (u : ℕ) : Finset ℕ :=
  ((test.filter (fun r => r.user == u && decide (thr ≤ r.rating))).map (·.product)).toFinset

/-- The recommended product list `recommend_func` yields for a user
(empty on failure, matching the skip). -/
def recProducts (recFn : List Rating → ℕ → ℕ → Except Unit (List RecRow))
    (train : List Rating) (maxK u : ℕ) : List ℕ :=
  match recFn train u maxK with
  | .ok l => l.map (·.product)
  | .error _ => []

/-- A test user contributes to the aggregate iff they have a relevant item,
`recommend_func` does not raise, and the recommendation list is nonempty
(evaluation.py lines 242-268). -/
def okUser (recFn : List Rating → ℕ → ℕ → Except Unit (List RecRow))
    (train test : List Rating) (thr : ℚ) (maxK u : ℕ) : Bool :=
  decide (relevantItems test thr u ≠ ∅) &&
    (match recFn train u maxK with
     | .ok l => !l.isEmpty
     | .error _ => false)

/-- `evaluate_recommendations` (evaluation.py lines 201-295): per test user,
a try/except-guarded evaluation appending precision/recall/F1 at each `k`;
the summary keeps each `k` only if at least one user was evaluated, and
averages.  Returns the summary as `(k, precision, recall, f1)` rows. -/
def evaluate_recommendations (recFn : List Rating → ℕ → ℕ → Except Unit (List RecRow))
    (train test : List Rating) (ks : List ℕ) (thr : ℚ) : List (ℕ × ℚ × ℚ × ℚ) :=
  let maxK := ks.foldl max 0
  let init : List (ℕ × List ℚ × List ℚ × List ℚ) := ks.map (fun k => (k, [], [], []))
  let final := (uniqueUsers test).foldl (fun acc u =>
    let relevant := relevantItems test thr u
    if relevant = ∅ then acc
    else
      match recFn train u maxK with
      | .error _ => acc
      | .ok recs =>
        if recs.isEmpty then acc
        else
          let recd := recs.map (·.product)
          acc.map (fun e => (e.1,
            e.2.1 ++ [precision_at_k recd relevant e.1],
            e.2.2.1 ++ [recall_at_k recd relevant e.1],
            e.2.2.2 ++ [f1_score_at_k recd relevant e.1]))) init
  final.filterMap (fun e =>
    if e.2.1.isEmpty then none
    else some (e.1, meanL e.2.1, meanL e.2.2.1, meanL e.2.2.2))

/-- The `(actual, predicted)` pairs of the test records whose prediction
succeeds, in test order. -/
def successPairs (predictFn : List Rating → ℕ → ℕ → Except Unit ℚ)
    (train test : List Rating) : List (ℚ × ℚ) :=
  test.filterMap (fun r =>
    match predictFn train r.user r.product with
    | .ok p => some (r.rating, p)
    | .error _ => none)

/-- `evaluate_rating_prediction` (evaluation.py lines 298-343): the
try/except loop collecting actual/predicted pairs, returning the empty
result (`none`, the source's `{}`) when no prediction succeeded, else
RMSE (here its square, the MSE), MAE and the number of predictions. -/
def evaluate_rating_prediction (predictFn : List Rating → ℕ → ℕ → Except Unit ℚ)
    (train test : List Rating) : Option (ℚ × ℚ × ℕ) :=
  let pairs := test.foldl (fun acc r =>
    match predictFn train r.user r.product with
    | .ok p => acc ++ [(r.rating, p)]
    | .error _ => acc) []
  if pairs.isEmpty then none
  else some (calculate_rmse_sq (pairs.map (·.1)) (pairs.map (·.2)),
    calculate_mae (pairs.map (·.1)) (pairs.map (·.2)), pairs.length)

/-- sklearn `train_test_split`'s test-set size for a float `test_size`:
`ceil(test_size * n)`. -/
def nTestOf (t : ℚ) (n : ℕ) : ℕ := (Int.ceil (t * n)).toNat

/-- One user's `train_test_split(user_data, test_size, random_state)`:
the seeded permutation picks the test indices first, then the train
indices; sklearn raises when either side would be empty. -/
def splitUser (perm : List ℕ) (rows : List Rating) (nTest : ℕ) :
    Option (List Rating × List Rating) :=
  if nTest = 0 ∨ rows.length ≤ nTest then none
  else some ((perm.drop nTest).filterMap (fun i => rows.get? i),
    (perm.take nTest).filterMap (fun i => rows.get? i))

/-- The per-user loop of `split_train_test` (evaluation.py lines 46-59),
concatenating per-user train/test frames in user order. -/
def splitUsers (shuffle : ℕ → ℕ → List ℕ) (df : List Rating) (t : ℚ) (seed : ℕ) :
    List ℕ → Option (List Rating × List Rating)
  | [] => some ([], [])
  | u :: us => do
    let rows := df.filter (fun r => r.user == u)
    let (trU, teU) ← splitUser (shuffle seed rows.length) rows (nTestOf t rows.length)
    let (trRest, teRest) ← splitUsers shuffle df t seed us
    return (trU ++ trRest, teU ++ teRest)

/-- `split_train_test` (evaluation.py lines 15-64).  `shuffle seed n` is the
oracle for numpy's seeded permutation of `range n` (see `IsShuffler`);
`none` models the exceptions (sklearn's size validation, or `pd.concat` on
an empty list when no user reaches `min_ratings_per_user`). -/
def split_train_test (shuffle : ℕ → ℕ → List ℕ) (df : List Rating)
    (testSize : ℚ := 1 / 5) (randomState : ℕ := 42) (minPerUser : ℕ := 5) :
    Option (List Rating × List Rating) :=
  if ¬(0 < testSize ∧ testSize < 1) then none
  else
    let users := (sortedUsers df).filter (fun u => decide (minPerUser ≤ countU df u))
    if users.isEmpty then none
    else splitUsers shuffle df testSize randomState users

/-- The shuffle oracle is a permutation of `range n` for every size: what
numpy's seeded `permutation(n)` guarantees. -/
def IsShuffler (shuffle : ℕ → ℕ → List ℕ) : Prop :=
  ∀ seed n, (shuffle seed n).Perm (List.range n)


/-! ## Concrete fixtures

Small rating tables used by the concrete statements, with their exact
item-item cosine-similarity matrices.  Each `sim` function is checked
against the corresponding matrix by `CosCompatible` (every consulted
cosine in these fixtures is rational). -/

/-- Fixture: user 1 rates 101→5, 102→3, 103→4 (mean 4); user 2 rates
101→5, 103→5, 104→1 (mean 11/3).  Under `mean_center` user 1's row is
(1, -1, 0, 0), so item 103 — rated 4.0 by user 1 — sits at matrix value 0. -/
def df1 : List Rating :=
  [⟨1, 101, 5⟩, ⟨1, 102, 3⟩, ⟨1, 103, 4⟩, ⟨2, 101, 5⟩, ⟨2, 103, 5⟩, ⟨2, 104, 1⟩]

/-- The exact cosine-similarity matrix of the mean-centered `df1`
(columns 101 = (1, 4/3), 102 = (-1, 0), 103 = (0, 4/3), 104 = (0, -8/3)
over users (1, 2)); every entry is rational. -/
def sim1 : ℕ → ℕ → ℚ := fun p q =>
  if p = q then 1
  else if (p = 101 ∧ q = 102) ∨ (p = 102 ∧ q = 101) then -3 / 5
  else if (p = 101 ∧ q = 103) ∨ (p = 103 ∧ q = 101) then 4 / 5
  else if (p = 101 ∧ q = 104) ∨ (p = 104 ∧ q = 101) then -4 / 5
  else if (p = 103 ∧ q = 104) ∨ (p = 104 ∧ q = 103) then -1
  else 0

/-- Fixture: user 1 rates items 1→3 and 7→3; user 2 rates 1→4, 5→2;
user 3 rates 7→4, 3→2.  Raw columns over users (1, 2, 3):
1 = (3, 4, 0), 3 = (0, 0, 2), 5 = (0, 2, 0), 7 = (3, 0, 4). -/
def df7 : List Rating :=
  [⟨1, 1, 3⟩, ⟨1, 7, 3⟩, ⟨2, 1, 4⟩, ⟨2, 5, 2⟩, ⟨3, 7, 4⟩, ⟨3, 3, 2⟩]

/-- The exact cosine-similarity matrix of the raw `df7` matrix;
every entry is rational. -/
def sim7 : ℕ → ℕ → ℚ := fun p q =>
  if p = q then 1
  else if (p = 1 ∧ q = 5) ∨ (p = 5 ∧ q = 1) then 4 / 5
  else if (p = 1 ∧ q = 7) ∨ (p = 7 ∧ q = 1) then 9 / 25
  else if (p = 3 ∧ q = 7) ∨ (p = 7 ∧ q = 3) then 4 / 5
  else 0

/-- Fixture for `min_similarity = 0`: two users rating disjoint items, so
the two item columns are orthogonal and their cosine is exactly 0. -/
def df2 : List Rating := [⟨1, 10, 5⟩, ⟨2, 20, 4⟩]

/-- The exact cosine matrix of the raw `df2` matrix. -/
def sim2 : ℕ → ℕ → ℚ := fun p q => if p = q then 1 else 0

/-- Fixture for the cold-start path: user 1's two ratings are constant, so
mean-centering zeroes the entire row; user 2 supplies other records. -/
def df9 : List Rating := [⟨1, 10, 3⟩, ⟨1, 11, 3⟩, ⟨2, 10, 5⟩, ⟨2, 12, 4⟩]

/-- The cosine matrix of the mean-centered `df9` (user 1's normalized
ratings are 0, user 2's are 1/2 and -1/2, so columns 10 = (0, 1/2),
11 = (0, 0), 12 = (0, -1/2)). -/
def sim9 : ℕ → ℕ → ℚ := fun p q =>
  if p = q ∧ p ≠ 11 then 1
  else if (p = 10 ∧ q = 12) ∨ (p = 12 ∧ q = 10) then -1
  else 0

/-- Fixture for the splitter: user 1 has five records, user 2 only one. -/
def df3 : List Rating :=
  [⟨1, 10, 3⟩, ⟨1, 11, 4⟩, ⟨1, 12, 5⟩, ⟨1, 13, 2⟩, ⟨1, 14, 1⟩, ⟨2, 10, 5⟩]

/-- Fixture for the dropped pivot row: user 1 has a single rating, so under
z-score every value of user 1 is NaN (pandas' one-sample `std` is NaN) and
`pivot_table` drops the whole row; user 2's two constant ratings normalize
to 0, so every surviving column is a zero vector. -/
def dfk : List Rating := [⟨1, 10, 3⟩, ⟨2, 10, 4⟩, ⟨2, 11, 4⟩]

/-! ## Helper lemmas -/

theorem list_sum_zero_of_nonneg {l : List ℚ} (h : ∀ x ∈ l, 0 ≤ x) (hs : l.sum = 0) :
    ∀ x ∈ l, x = 0 := by
  induction l with
  | nil => intro x hx; cases hx
  | cons a t ih =>
    have hat : 0 ≤ a := h a (List.mem_cons_self a t)
    have htt : 0 ≤ t.sum := List.sum_nonneg (fun x hx => h x (List.mem_cons_of_mem a hx))
    have hsum : a + t.sum = 0 := by rw [List.sum_cons] at hs; exact hs
    have ha0 : a = 0 := by linarith
    have ht0 : t.sum = 0 := by linarith
    intro x hx
    rcases List.mem_cons.mp hx with rfl | hx
    · exact ha0
    · exact ih (fun y hy => h y (List.mem_cons_of_mem a hy)) ht0 x hx

theorem mem_userIds_of_ratings {df : List Rating} {u : ℕ} {r : ℚ}
    (h : r ∈ ratingsOf df u) : u ∈ userIds df := by
  unfold ratingsOf at h
  obtain ⟨rec, hrec, -⟩ := List.mem_map.mp h
  obtain ⟨hmem, hu⟩ := List.mem_filter.mp hrec
  exact List.mem_map.mpr ⟨rec, hmem, eq_of_beq hu⟩

/-- Zero sample variance with at least two samples forces every rating to
equal the mean. -/
theorem eq_mean_of_var_zero {df : List Rating} {u : ℕ} (h2 : 2 ≤ countU df u)
    (hv : varU df u = 0) : ∀ r ∈ ratingsOf df u, r = meanU df u := by
  intro r hr
  have hden : ((countU df u : ℚ) - 1) ≠ 0 := by
    have : (2 : ℚ) ≤ (countU df u : ℚ) := by exact_mod_cast h2
    linarith
  have hsum : ((ratingsOf df u).map
      (fun x => (x - meanU df u) * (x - meanU df u))).sum = 0 := by
    unfold varU at hv
    rcases div_eq_zero_iff.mp hv with h | h
    · exact h
    · exact absurd h hden
  have hz := list_sum_zero_of_nonneg
    (l := (ratingsOf df u).map (fun x => (x - meanU df u) * (x - meanU df u)))
    (fun x hx => by
      obtain ⟨y, -, rfl⟩ := List.mem_map.mp hx
      exact mul_self_nonneg _) hsum
  have := hz ((r - meanU df u) * (r - meanU df u)) (List.mem_map.mpr ⟨r, hr, rfl⟩)
  have hsq : r - meanU df u = 0 := mul_self_eq_zero.mp this
  linarith

/-! Machinery for the score dictionary and the stable descending sort. -/

theorem insDesc_perm (x : ℕ × ℚ) (l : List (ℕ × ℚ)) : (insDesc x l).Perm (x :: l) := by
  induction l with
  | nil => simp [insDesc]
  | cons y ys ih =>
    unfold insDesc
    split_ifs
    · exact List.Perm.refl _
    · exact List.Perm.trans (List.Perm.cons y ih) (List.Perm.swap x y ys)

theorem sortDesc_perm (l : List (ℕ × ℚ)) : (sortDesc l).Perm l := by
  induction l with
  | nil => simp [sortDesc]
  | cons a t ih =>
    have : sortDesc (a :: t) = insDesc a (sortDesc t) := rfl
    rw [this]
    exact List.Perm.trans (insDesc_perm a (sortDesc t)) (List.Perm.cons a ih)

theorem insDesc_pairwise {x : ℕ × ℚ} {l : List (ℕ × ℚ)}
    (h : l.Pairwise (fun a b => b.2 ≤ a.2)) :
    (insDesc x l).Pairwise (fun a b => b.2 ≤ a.2) := by
  induction l with
  | nil => simp [insDesc]
  | cons y ys ih =>
    rcases List.pairwise_cons.mp h with ⟨hy, hys⟩
    unfold insDesc
    split_ifs with hle
    · refine List.pairwise_cons.mpr ⟨?_, h⟩
      intro z hz
      rcases List.mem_cons.mp hz with rfl | hz
      · exact hle
      · exact le_trans (hy z hz) hle
    · refine List.pairwise_cons.mpr ⟨?_, ih hys⟩
      intro z hz
      have hz2 : z ∈ x :: ys := (insDesc_perm x ys).mem_iff.mp hz
      rcases List.mem_cons.mp hz2 with rfl | hz2
      · exact le_of_not_le hle
      · exact hy z hz2

theorem sortDesc_pairwise (l : List (ℕ × ℚ)) :
    (sortDesc l).Pairwise (fun a b => b.2 ≤ a.2) := by
  induction l with
  | nil => simp [sortDesc]
  | cons a t ih => exact insDesc_pairwise ih

theorem lookup2_eq_none_iff (d : List (ℕ × ℚ × ℚ)) (k : ℕ) :
    lookup2 d k = none ↔ k ∉ d.map (·.1) := by
  induction d with
  | nil => simp [lookup2]
  | cons e t ih =>
    obtain ⟨k', s, w⟩ := e
    unfold lookup2
    by_cases hk : k' = k
    · subst hk; simp
    · simp [hk, ih, Ne.symm hk]

theorem dictAdd_lookup (acc : List (ℕ × ℚ × ℚ)) (c : ℕ × ℚ × ℚ) (k : ℕ) :
    lookup2 (dictAdd acc c) k =
      if c.1 = k then
        some ((((lookup2 acc k).getD (0, 0)).1 + c.2.1),
          (((lookup2 acc k).getD (0, 0)).2 + c.2.2))
      else lookup2 acc k := by
  obtain ⟨ck, cv, cw⟩ := c
  induction acc with
  | nil =>
    by_cases hc : ck = k
    · simp [dictAdd, lookup2, hc]
    · simp [dictAdd, lookup2, hc]
  | cons e t ih =>
    obtain ⟨k2, s, w⟩ := e
    by_cases hk : k2 = ck
    · subst hk
      by_cases hc : k2 = k
      · subst hc
        simp [dictAdd, lookup2]
      · simp [dictAdd, lookup2, hc]
    · by_cases hc : k2 = k
      · subst hc
        have hck : ¬ ck = k2 := fun h => hk h.symm
        simp [dictAdd, lookup2, hk, hck]
      · simp [dictAdd, lookup2, hk, hc, ih]

theorem dictAdd_keys (acc : List (ℕ × ℚ × ℚ)) (c : ℕ × ℚ × ℚ) :
    (dictAdd acc c).map (·.1) =
      if c.1 ∈ acc.map (·.1) then acc.map (·.1) else acc.map (·.1) ++ [c.1] := by
  obtain ⟨ck, cv, cw⟩ := c
  induction acc with
  | nil => simp [dictAdd]
  | cons e t ih =>
    obtain ⟨k2, s, w⟩ := e
    by_cases hk : k2 = ck
    · subst hk
      simp [dictAdd]
    · have hck : ¬ ck = k2 := fun h => hk h.symm
      simp only [dictAdd, if_neg hk, List.map_cons, List.mem_cons]
      rw [ih]
      by_cases hmem : ck ∈ t.map (·.1)
      · simp [hmem, hck]
      · simp [hmem, hck]

theorem buildDict_snoc (cs : List (ℕ × ℚ × ℚ)) (c : ℕ × ℚ × ℚ) :
    buildDict (cs ++ [c]) = dictAdd (buildDict cs) c := by
  simp [buildDict, List.foldl_append]

/-- The score dictionary after the loop maps each key to the sums of its
score and weight contributions, and holds no other keys. -/
theorem lookup2_buildDict (cs : List (ℕ × ℚ × ℚ)) (k : ℕ) :
    lookup2 (buildDict cs) k =
      if cs.filter (fun c => c.1 == k) = [] then none
      else some (((cs.filter (fun c => c.1 == k)).map (fun c => c.2.1)).sum,
        ((cs.filter (fun c => c.1 == k)).map (fun c => c.2.2)).sum) := by
  induction cs using List.reverseRecOn with
  | nil => simp [buildDict, lookup2]
  | append_singleton cs c ih =>
    rw [buildDict_snoc, dictAdd_lookup, ih]
    by_cases hc : c.1 = k
    · have hbeq : (c.1 == k) = true := by simpa using hc
      by_cases hnil : cs.filter (fun c => c.1 == k) = []
      · simp [hc, hnil, List.filter_append, hbeq]
      · simp [hc, hnil, List.filter_append, hbeq, add_comm]
    · have hbeq : ¬ ((c.1 == k) = true) := by simpa using hc
      have hfa : List.filter (fun e => e.1 == k) (cs ++ [c]) =
          List.filter (fun e => e.1 == k) cs := by
        rw [List.filter_append]
        simp [List.filter_cons, hbeq]
      rw [if_neg hc, hfa]

theorem buildDict_keys_mem (cs : List (ℕ × ℚ × ℚ)) (k : ℕ)
    (h : k ∈ (buildDict cs).map (·.1)) : k ∈ cs.map (·.1) := by
  by_contra hmem
  have hfil : cs.filter (fun c => c.1 == k) = [] := by
    refine List.filter_eq_nil_iff.mpr ?_
    intro c hc hck
    exact hmem (List.mem_map.mpr ⟨c, hc, by simpa using hck⟩)
  have hnone : lookup2 (buildDict cs) k = none := by
    rw [lookup2_buildDict, if_pos hfil]
  exact ((lookup2_eq_none_iff _ _).mp hnone) h

theorem buildDict_keys_nodup (cs : List (ℕ × ℚ × ℚ)) :
    ((buildDict cs).map (·.1)).Nodup := by
  induction cs using List.reverseRecOn with
  | nil => simp [buildDict]
  | append_singleton cs c ih =>
    rw [buildDict_snoc, dictAdd_keys]
    split_ifs with hmem
    · exact ih
    · exact List.Nodup.append ih (List.nodup_singleton _)
        (by simpa [List.disjoint_singleton] using hmem)

theorem finalScores_keys (d : List (ℕ × ℚ × ℚ)) :
    (finalScores d).map (·.1) = d.map (·.1) := by
  simp [finalScores, List.map_map, Function.comp]

/-! Pivot-index lemmas: the item/user axes are sorted and duplicate-free. -/

theorem insSorted_mem (x y : ℕ) (l : List ℕ) : y ∈ insSorted x l ↔ y = x ∨ y ∈ l := by
  induction l with
  | nil => simp [insSorted]
  | cons a t ih =>
    unfold insSorted
    split_ifs with h1 h2
    · simp [List.mem_cons]
    · subst h2; simp [List.mem_cons]
    · simp [List.mem_cons, ih]; tauto

theorem insSorted_pairwise {x : ℕ} {l : List ℕ} (h : l.Pairwise (· < ·)) :
    (insSorted x l).Pairwise (· < ·) := by
  induction l with
  | nil => simp [insSorted]
  | cons a t ih =>
    rcases List.pairwise_cons.mp h with ⟨ha, ht⟩
    unfold insSorted
    split_ifs with h1 h2
    · refine List.pairwise_cons.mpr ⟨?_, h⟩
      intro z hz
      rcases List.mem_cons.mp hz with rfl | hz
      · exact h1
      · exact lt_trans h1 (ha z hz)
    · exact h
    · refine List.pairwise_cons.mpr ⟨?_, ih ht⟩
      intro z hz
      rcases (insSorted_mem x z t).mp hz with rfl | hz
      · omega
      · exact ha z hz

theorem sortedItems_pairwise (df : List Rating) : (sortedItems df).Pairwise (· < ·) := by
  unfold sortedItems
  induction df with
  | nil => simp
  | cons r t ih => exact insSorted_pairwise ih

theorem sortedItems_nodup (df : List Rating) : (sortedItems df).Nodup :=
  (sortedItems_pairwise df).imp ne_of_lt

theorem mem_sortedItems (df : List Rating) (p : ℕ) :
    p ∈ sortedItems df ↔ ∃ r ∈ df, r.product = p := by
  unfold sortedItems
  induction df with
  | nil => simp
  | cons r t ih =>
    rw [List.foldr_cons, insSorted_mem, ih]
    constructor
    · rintro (rfl | ⟨s, hs, rfl⟩)
      · exact ⟨r, List.mem_cons_self r t, rfl⟩
      · exact ⟨s, List.mem_cons_of_mem r hs, rfl⟩
    · rintro ⟨s, hs, rfl⟩
      rcases List.mem_cons.mp hs with rfl | hs
      · exact Or.inl rfl
      · exact Or.inr ⟨s, hs, rfl⟩

theorem sortedUsers_pairwise (df : List Rating) : (sortedUsers df).Pairwise (· < ·) := by
  unfold sortedUsers
  induction df with
  | nil => simp
  | cons r t ih => exact insSorted_pairwise ih

theorem sortedUsers_nodup (df : List Rating) : (sortedUsers df).Nodup :=
  (sortedUsers_pairwise df).imp ne_of_lt

theorem mem_sortedUsers (df : List Rating) (u : ℕ) :
    u ∈ sortedUsers df ↔ u ∈ userIds df := by
  unfold sortedUsers userIds
  induction df with
  | nil => simp
  | cons r t ih =>
    rw [List.foldr_cons, insSorted_mem, ih]
    simp

theorem matrixItems_nodup (stdOf : ℕ → ℚ) (df : List Rating) (method : String)
    (useNorm : Bool) : (matrixItems stdOf df method useNorm).Nodup :=
  (sortedItems_nodup df).filter _

/-- With raw ratings no value is NaN, so every present user keeps a row. -/
theorem mem_matrixUsers_raw (stdOf : ℕ → ℚ) (df : List Rating) (method : String)
    {user : ℕ} (hmem : user ∈ userIds df) :
    user ∈ matrixUsers stdOf df method false := by
  unfold matrixUsers
  obtain ⟨r, hr, hru⟩ := List.mem_map.mp hmem
  refine List.mem_filter.mpr ⟨(mem_sortedUsers df user).mpr hmem, ?_⟩
  refine List.any_eq_true.mpr ⟨r, hr, ?_⟩
  simp [hru]

/-- With raw ratings every product of the table keeps a column. -/
theorem mem_matrixItems_raw (stdOf : ℕ → ℚ) (df : List Rating) (method : String)
    {rec : Rating} (hrec : rec ∈ df) :
    rec.product ∈ matrixItems stdOf df method false := by
  unfold matrixItems
  refine List.mem_filter.mpr
    ⟨(mem_sortedItems df rec.product).mpr ⟨rec, hrec, rfl⟩, ?_⟩
  refine List.any_eq_true.mpr ⟨rec, hrec, ?_⟩
  simp

/-- Keys of a guarded `filterMap` that tags each surviving element. -/
theorem filterMap_if_keys {β : Type} (l : List ℕ) (c : ℕ → Prop) [DecidablePred c]
    (g : ℕ → β) :
    ((l.filterMap (fun p => if c p then some (p, g p) else none)).map (·.1)) =
      l.filter (fun p => decide (c p)) := by
  induction l with
  | nil => simp
  | cons a t ih =>
    by_cases hc : c a
    · simp [List.filterMap_cons, List.filter_cons, hc, ih]
    · simp [List.filterMap_cons, List.filter_cons, hc, ih]

/-- Shape of every successful recommendation frame: rows built by sorting an
association list with duplicate-free keys, truncating to `n` and mapping into
`RecRow`s are sorted by score descending, have distinct products and at most
`n` rows. -/
theorem rows_shape (l : List (ℕ × ℚ)) (n : ℕ) (f : ℚ → Option ℚ)
    (hnd : (l.map (·.1)).Nodup) :
    (((sortDesc l).take n).map
        (fun pr => (⟨pr.1, pr.2, f pr.2⟩ : RecRow))
      |>.Pairwise (fun a b => b.score ≤ a.score)) ∧
    ((((sortDesc l).take n).map
        (fun pr => (⟨pr.1, pr.2, f pr.2⟩ : RecRow))).map (·.product)).Nodup ∧
    (((sortDesc l).take n).map
        (fun pr => (⟨pr.1, pr.2, f pr.2⟩ : RecRow))).length ≤ n := by
  have hps : ((sortDesc l).take n).Pairwise (fun a b => b.2 ≤ a.2) :=
    (sortDesc_pairwise l).sublist (List.take_sublist n (sortDesc l))
  have hndt : (((sortDesc l).take n).map (·.1)).Nodup := by
    have h1 : ((sortDesc l).map (·.1)).Nodup :=
      ((sortDesc_perm l).map (·.1)).nodup_iff.mpr hnd
    exact h1.sublist (List.Sublist.map _ (List.take_sublist n (sortDesc l)))
  refine ⟨?_, ?_, ?_⟩
  · exact List.Pairwise.map _ (fun a b h => h) hps
  · have heq : ((((sortDesc l).take n).map
        (fun pr => (⟨pr.1, pr.2, f pr.2⟩ : RecRow))).map
        (·.product)) = ((sortDesc l).take n).map (·.1) := by
      rw [List.map_map]
      rfl
    rw [heq]
    exact hndt
  · rw [List.length_map]
    exact List.length_take_le n (sortDesc l)

/-! ## Claim C7: result ordering -/

/-- C7 (amended): every successful `recommend_for_user` result has at most
`n` rows, unique product ids, and is sorted by score descending; but score
ties keep the accumulation (dictionary-insertion) order of the scoring
loop, NOT ascending product id — see the counterexample. -/
theorem recommend_result_shape (sim : ℕ → ℕ → ℚ) (stdOf : ℕ → ℚ) (df : List Rating)
    (user n : ℕ) (minSim : ℚ) (useNorm : Bool) (method : String)
    (res : List RecRow)
    (hok : recommend_for_user sim stdOf df user n minSim useNorm method = .ok res) :
    res.Pairwise (fun a b => b.score ≤ a.score) ∧
    (res.map (·.product)).Nodup ∧ res.length ≤ n := by
  unfold recommend_for_user at hok
  simp only [] at hok
  by_cases h1 : user ∉ userIds df
  · rw [if_pos h1] at hok; cases hok
  rw [if_neg h1] at hok
  by_cases h2 : (useNorm && !validMethod method) = true
  · rw [if_pos h2] at hok; cases hok
  rw [if_neg h2] at hok
  by_cases hk : user ∉ matrixUsers stdOf df method useNorm
  · rw [if_pos hk] at hok; cases hok
  rw [if_neg hk] at hok
  by_cases h3 : ratedItems stdOf df method useNorm user = []
  · rw [if_pos h3] at hok
    obtain rfl : get_popular_items df n = res := by simpa using hok
    unfold get_popular_items
    refine rows_shape _ n some ?_
    rw [filterMap_if_keys]
    exact (sortedItems_nodup df).filter _
  rw [if_neg h3] at hok
  by_cases h4 : buildDict (contribs sim stdOf df method useNorm minSim user) = []
  · rw [if_pos h4] at hok
    obtain rfl : ([] : List RecRow) = res := by simpa using hok
    simp
  rw [if_neg h4] at hok
  obtain rfl :
      (((sortDesc (finalScores
          (buildDict (contribs sim stdOf df method useNorm minSim user)))).take n).map
        (fun pr => (⟨pr.1, pr.2,
          estimateRow stdOf df method useNorm user pr.2⟩ : RecRow))) = res := by
    simpa using hok
  have hnd : ((finalScores
      (buildDict (contribs sim stdOf df method useNorm minSim user))).map (·.1)).Nodup := by
    rw [finalScores_keys]
    exact buildDict_keys_nodup _
  exact rows_shape
    (finalScores (buildDict (contribs sim stdOf df method useNorm minSim user))) n
    (estimateRow stdOf df method useNorm user) hnd

/-! Concrete evaluations of the fixtures (shared by several claims). -/

theorem df1_cosine : CosCompatible sim1 (fun _ => 0) df1 "mean_center" true := by
  have hitems : sortedItems df1 = [101, 102, 103, 104] := by decide
  have husers : sortedUsers df1 = [1, 2] := by decide
  have hc101 : cellVal (fun _ => 0) df1 "mean_center" true 1 101 = 1 := by
    with_unfolding_all decide
  have hc102 : cellVal (fun _ => 0) df1 "mean_center" true 1 102 = -1 := by
    with_unfolding_all decide
  have hc103 : cellVal (fun _ => 0) df1 "mean_center" true 1 103 = 0 := by
    with_unfolding_all decide
  have hc104 : cellVal (fun _ => 0) df1 "mean_center" true 1 104 = 0 := by
    with_unfolding_all decide
  have hd101 : cellVal (fun _ => 0) df1 "mean_center" true 2 101 = 4 / 3 := by
    with_unfolding_all decide
  have hd102 : cellVal (fun _ => 0) df1 "mean_center" true 2 102 = 0 := by
    with_unfolding_all decide
  have hd103 : cellVal (fun _ => 0) df1 "mean_center" true 2 103 = 4 / 3 := by
    with_unfolding_all decide
  have hd104 : cellVal (fun _ => 0) df1 "mean_center" true 2 104 = -8 / 3 := by
    with_unfolding_all decide
  intro p hp q hq
  rw [hitems] at hp hq
  fin_cases hp <;> fin_cases hq <;>
    simp only [colDot, husers, List.map_cons, List.map_nil, List.sum_cons, List.sum_nil,
      hc101, hc102, hc103, hc104, hd101, hd102, hd103, hd104] <;>
    norm_num [sim1]

theorem df1_eval :
    recommend_for_user sim1 (fun _ => 0) df1 1 10 (1 / 10) true "mean_center" =
      .ok [⟨103, 1, some 5⟩] := by
  have hrated : ratedItems (fun _ => 0) df1 "mean_center" true 1 = [101] := by
    with_unfolding_all decide
  have hc101 : cellVal (fun _ => 0) df1 "mean_center" true 1 101 = 1 := by
    with_unfolding_all decide
  have hc102 : cellVal (fun _ => 0) df1 "mean_center" true 1 102 = -1 := by
    with_unfolding_all decide
  have hc103 : cellVal (fun _ => 0) df1 "mean_center" true 1 103 = 0 := by
    with_unfolding_all decide
  have hc104 : cellVal (fun _ => 0) df1 "mean_center" true 1 104 = 0 := by
    with_unfolding_all decide
  have hmitems : matrixItems (fun _ => 0) df1 "mean_center" true =
      [101, 102, 103, 104] := by
    with_unfolding_all decide
  have hcontribs : contribs sim1 (fun _ => 0) df1 "mean_center" true (1 / 10) 1 =
      [(103, 4 / 5, 4 / 5)] := by
    unfold contribs
    rw [hrated, hmitems]
    norm_num [sim1, hc101, hc102, hc103, hc104, abs_of_nonneg, List.flatMap_cons,
      List.flatMap_nil, List.filter_cons, List.filter_nil, List.filterMap_cons,
      List.filterMap_nil]
  have hmean : meanU df1 1 = 4 := by with_unfolding_all decide
  have hmu : (1 : ℕ) ∈ matrixUsers (fun _ => 0) df1 "mean_center" true := by
    with_unfolding_all decide
  unfold recommend_for_user
  rw [if_neg (by decide : ¬ (1 : ℕ) ∉ userIds df1)]
  rw [if_neg (by decide : ¬ ((true && !validMethod "mean_center") = true))]
  rw [if_neg (not_not_intro hmu)]
  norm_num [hrated, hcontribs, buildDict, dictAdd, finalScores, sortDesc,
    insDesc, estimateRow, clipQ, hmean]

theorem df7_cosine : CosCompatible sim7 (fun _ => 0) df7 "mean_center" false := by
  with_unfolding_all decide

theorem df7_eval :
    recommend_for_user sim7 (fun _ => 0) df7 1 10 (1 / 10) false "mean_center" =
      .ok [⟨5, 3, some 3⟩, ⟨3, 3, some 3⟩] := by
  with_unfolding_all decide

theorem df2_cosine : CosCompatible sim2 (fun _ => 0) df2 "mean_center" false := by
  with_unfolding_all decide

theorem df2_eval :
    recommend_for_user sim2 (fun _ => 0) df2 1 10 0 false "mean_center" =
      .ok [⟨20, 0, some (1 / 2)⟩] := by
  with_unfolding_all decide

/-! ## Claim C1: no already-rated product -/

theorem cellVal_raw_pos (stdOf : ℕ → ℚ) (df : List Rating) (method : String)
    (user : ℕ) (rec : Rating) (hrec : rec ∈ df) (hu : rec.user = user)
    (hpos : ∀ r ∈ df, 0 < r.rating) :
    0 < cellVal stdOf df method false user rec.product := by
  unfold cellVal
  have hfm : ∀ l : List Rating,
      (l.filterMap (fun r =>
        if (false : Bool) then normVal stdOf df method r.user r.rating
        else some r.rating)) = l.map (·.rating) := by
    intro l
    have hfn : (fun (r : Rating) =>
        if (false : Bool) then normVal stdOf df method r.user r.rating
        else some r.rating) = fun r => some r.rating := by
      funext r
      simp
    rw [hfn]
    induction l with
    | nil => rfl
    | cons a t ih => simp [List.filterMap_cons, ih]
  rw [hfm]
  have hrl : rec ∈ df.filter (fun r => r.user == user && r.product == rec.product) :=
    List.mem_filter.mpr ⟨hrec, by simp [hu]⟩
  have hne : df.filter (fun r => r.user == user && r.product == rec.product) ≠ [] :=
    List.ne_nil_of_mem hrl
  have hlenpos : 0 <
      ((df.filter (fun r => r.user == user && r.product == rec.product)).map
        (·.rating)).length := by
    simp only [List.length_map]
    exact List.length_pos.mpr hne
  rw [if_neg (by omega)]
  refine div_pos ?_ (by exact_mod_cast hlenpos)
  refine List.sum_pos _ ?_ (by simpa using hne)
  intro x hx
  obtain ⟨r, hr, rfl⟩ := List.mem_map.mp hx
  exact hpos r (List.mem_of_mem_filter hr)

theorem contribs_key_cell_zero (sim : ℕ → ℕ → ℚ) (stdOf : ℕ → ℚ) (df : List Rating)
    (method : String) (useNorm : Bool) (minSim : ℚ) (u k : ℕ)
    (h : k ∈ (contribs sim stdOf df method useNorm minSim u).map (·.1)) :
    cellVal stdOf df method useNorm u k = 0 := by
  obtain ⟨c, hc, rfl⟩ := List.mem_map.mp h
  obtain ⟨p, hp, hcf⟩ := List.mem_flatMap.mp hc
  obtain ⟨o, ho, heq⟩ := List.mem_filterMap.mp hcf
  by_cases hcond : cellVal stdOf df method useNorm u o = 0 ∧ minSim ≤ sim p o
  · rw [if_pos hcond] at heq
    obtain rfl := Option.some.injEq _ _ ▸ heq
    simpa using hcond.1
  · rw [if_neg hcond] at heq
    cases heq

/-- C1 (amended): with raw ratings (`use_normalized = False`) and strictly
positive ratings — the data model requires the valid range to start above
0 — no product in the result was already rated by the user.  Under
normalization the invariant fails: a rated item whose normalized rating is
exactly 0 is treated as unrated and can be recommended (see the
counterexample). -/
theorem recommend_no_already_rated (sim : ℕ → ℕ → ℚ) (stdOf : ℕ → ℚ)
    (df : List Rating) (user n : ℕ) (minSim : ℚ) (method : String)
    (res : List RecRow)
    (hpos : ∀ r ∈ df, 0 < r.rating)
    (hok : recommend_for_user sim stdOf df user n minSim false method = .ok res) :
    ∀ row ∈ res, ∀ rec ∈ df, rec.user = user → rec.product ≠ row.product := by
  intro row hrow rec hrec huser hcontra
  have hcell : 0 < cellVal stdOf df method false user rec.product :=
    cellVal_raw_pos stdOf df method user rec hrec huser hpos
  unfold recommend_for_user at hok
  simp only [] at hok
  rw [if_neg (by
    simp only [not_not]
    exact List.mem_map.mpr ⟨rec, hrec, huser⟩)] at hok
  rw [if_neg (by simp)] at hok
  rw [if_neg (not_not_intro (mem_matrixUsers_raw stdOf df method
    (List.mem_map.mpr ⟨rec, hrec, huser⟩)))] at hok
  have hmemr : rec.product ∈ ratedItems stdOf df method false user := by
    refine List.mem_filter.mpr ⟨?_, by simpa using hcell⟩
    exact mem_matrixItems_raw stdOf df method hrec
  rw [if_neg (List.ne_nil_of_mem hmemr)] at hok
  by_cases h4 : buildDict (contribs sim stdOf df method false minSim user) = []
  · rw [if_pos h4] at hok
    obtain rfl : ([] : List RecRow) = res := by simpa using hok
    cases hrow
  rw [if_neg h4] at hok
  obtain rfl :
      (((sortDesc (finalScores
          (buildDict (contribs sim stdOf df method false minSim user)))).take n).map
        (fun pr => (⟨pr.1, pr.2,
          estimateRow stdOf df method false user pr.2⟩ : RecRow))) = res := by
    simpa using hok
  obtain ⟨pr, hpr, hrowEq⟩ := List.mem_map.mp hrow
  have hprod : row.product = pr.1 := by rw [← hrowEq]
  have hpr2 : pr ∈ sortDesc (finalScores
      (buildDict (contribs sim stdOf df method false minSim user))) :=
    (List.take_sublist n _).mem hpr
  have hpr3 : pr ∈ finalScores
      (buildDict (contribs sim stdOf df method false minSim user)) :=
    (sortDesc_perm _).mem_iff.mp hpr2
  have hkey : pr.1 ∈ (finalScores
      (buildDict (contribs sim stdOf df method false minSim user))).map (·.1) :=
    List.mem_map.mpr ⟨pr, hpr3, rfl⟩
  rw [finalScores_keys] at hkey
  have hkey2 := buildDict_keys_mem _ _ hkey
  have hzero := contribs_key_cell_zero sim stdOf df method false minSim user pr.1 hkey2
  rw [hcontra, hprod, hzero] at hcell
  exact lt_irrefl 0 hcell

/-- Witness for C1 on the raw fixture `df7`: the returned products 5 and 3
were not rated by user 1 (who rated items 1 and 7). -/
theorem recommend_no_already_rated_witness :
    (∀ r ∈ df7, 0 < r.rating) ∧
    (∀ row ∈ ([⟨5, 3, some 3⟩, ⟨3, 3, some 3⟩] : List RecRow),
      ∀ rec ∈ df7, rec.user = 1 → rec.product ≠ row.product) :=
  ⟨by with_unfolding_all decide,
    recommend_no_already_rated sim7 (fun _ => 0) df7 1 10 (1 / 10) "mean_center" _
      (by with_unfolding_all decide) df7_eval⟩

/-- C1 as stated is false: on `df1` with `use_normalized = True` and
`mean_center`, user 1 rated product 103 (rating 4.0), its normalized
rating is 0, and `recommend_for_user` returns exactly product 103.
`sim1` is the exact cosine matrix of the normalized `df1` matrix
(`df1_cosine` is checked by the decidable `CosCompatible`). -/
theorem recommend_no_already_rated_counterexample :
    CosCompatible sim1 (fun _ => 0) df1 "mean_center" true ∧
    (⟨1, 103, 4⟩ : Rating) ∈ df1 ∧
    recommend_for_user sim1 (fun _ => 0) df1 1 10 (1 / 10) true "mean_center" =
      .ok [⟨103, 1, some 5⟩] :=
  ⟨df1_cosine, by decide, df1_eval⟩

/-! ## Claim C7 (continued): witness and counterexample -/

/-- Witness for C7 at the `df7` fixture. -/
theorem recommend_result_shape_witness :
    ([⟨5, 3, some 3⟩, ⟨3, 3, some 3⟩] : List RecRow).Pairwise
      (fun a b => b.score ≤ a.score) ∧
    (([⟨5, 3, some 3⟩, ⟨3, 3, some 3⟩] : List RecRow).map (·.product)).Nodup ∧
    ([⟨5, 3, some 3⟩, ⟨3, 3, some 3⟩] : List RecRow).length ≤ 10 :=
  recommend_result_shape sim7 (fun _ => 0) df7 1 10 (1 / 10) false "mean_center" _
    df7_eval

/-- C7's tie-break clause is false: on `df7` (raw ratings, exact rational
cosine matrix `sim7`) the two returned rows have equal scores but products
(5, 3) — descending, i.e. the dictionary-insertion order, not ascending
product id.  pandas `sort_values` keeps the pre-sort order of ties here
(numpy insertion sort below 17 elements), and the pre-sort order is the
order in which candidates first qualified in the scoring loop. -/
theorem recommend_tie_order_counterexample :
    CosCompatible sim7 (fun _ => 0) df7 "mean_center" false ∧
    recommend_for_user sim7 (fun _ => 0) df7 1 10 (1 / 10) false "mean_center" =
      .ok [⟨5, 3, some 3⟩, ⟨3, 3, some 3⟩] ∧
    (⟨5, 3, some 3⟩ : RecRow).score = (⟨3, 3, some 3⟩ : RecRow).score ∧
    (⟨3, 3, some 3⟩ : RecRow).product < (⟨5, 3, some 3⟩ : RecRow).product :=
  ⟨df7_cosine, df7_eval, rfl, by decide⟩

/-! ## Claim C2: score accumulation -/

theorem keyed_filterMap_filter (items : List ℕ) (hnd : items.Nodup) (q : ℕ → Bool)
    (P : ℕ → Prop) [DecidablePred P] (f : ℕ → ℚ × ℚ) (o : ℕ) :
    (((items.filter q).filterMap
        (fun x => if P x then some (x, f x) else none)).filter (fun c => c.1 == o)) =
      if o ∈ items ∧ q o = true ∧ P o then [(o, f o)] else [] := by
  induction items with
  | nil => simp
  | cons a t ih =>
    rcases List.nodup_cons.mp hnd with ⟨ha, ht⟩
    have ih2 := ih ht
    by_cases hqa : q a = true <;> by_cases hPa : P a <;> by_cases hao : a = o
    · subst hao
      have hmt : ((t.filter q).filterMap
          (fun x => if P x then some (x, f x) else none)).filter
          (fun c => c.1 == a) = [] := by
        rw [ih2]
        simp [ha]
      simp [List.filter_cons, List.filterMap_cons, hqa, hPa, hmt, ha]
    · simp [List.filter_cons, List.filterMap_cons, hqa, hPa, hao, ih2,
        (Ne.symm hao : ¬ o = a)]
    · subst hao
      simp [List.filter_cons, List.filterMap_cons, hqa, hPa, ih2, ha]
    · simp [List.filter_cons, List.filterMap_cons, hqa, hPa, ih2,
        (Ne.symm hao : ¬ o = a)]
    · subst hao
      simp [List.filter_cons, hqa, ih2, ha]
    · simp [List.filter_cons, hqa, ih2, (Ne.symm hao : ¬ o = a)]
    · subst hao
      simp [List.filter_cons, hqa, ih2, ha]
    · simp [List.filter_cons, hqa, ih2, (Ne.symm hao : ¬ o = a)]

theorem filter_flatMap_comm {α β : Type} (l : List α) (F : α → List β) (q : β → Bool) :
    (l.flatMap F).filter q = l.flatMap (fun a => (F a).filter q) := by
  induction l with
  | nil => rfl
  | cons a t ih => simp [List.flatMap_cons, List.filter_append, ih]

theorem flatMap_if_singleton {α β : Type} (l : List α) (C : α → Prop) [DecidablePred C]
    (e : α → β) :
    (l.flatMap (fun a => if C a then [e a] else [])) =
      (l.filter (fun a => decide (C a))).map e := by
  induction l with
  | nil => rfl
  | cons a t ih =>
    by_cases hC : C a
    · simp [List.flatMap_cons, List.filter_cons, hC, ih]
    · simp [List.flatMap_cons, List.filter_cons, hC, ih]

/-- The contributions carrying key `o` are exactly one per rated item `p`
with `p ≠ o` and `sim p o ≥ min_similarity`, in rated-item order. -/
theorem contribs_filter_key (sim : ℕ → ℕ → ℚ) (stdOf : ℕ → ℚ) (df : List Rating)
    (method : String) (useNorm : Bool) (minSim : ℚ) (u o : ℕ)
    (ho : o ∈ matrixItems stdOf df method useNorm)
    (hcell : cellVal stdOf df method useNorm u o = 0) :
    (contribs sim stdOf df method useNorm minSim u).filter (fun c => c.1 == o) =
      ((ratedItems stdOf df method useNorm u).filter
        (fun p => p != o && decide (minSim ≤ sim p o))).map
        (fun p => (o, sim p o * cellVal stdOf df method useNorm u p, |sim p o|)) := by
  unfold contribs
  rw [filter_flatMap_comm]
  have hinner : ∀ p : ℕ,
      (((matrixItems stdOf df method useNorm).filter (fun x => x != p)).filterMap
      (fun x => if cellVal stdOf df method useNorm u x = 0 ∧ minSim ≤ sim p x then
        some (x, sim p x * cellVal stdOf df method useNorm u p, |sim p x|)
      else none)).filter (fun c => c.1 == o) =
      if (p != o && decide (minSim ≤ sim p o)) = true then
        [(o, sim p o * cellVal stdOf df method useNorm u p, |sim p o|)] else [] := by
    intro p
    rw [keyed_filterMap_filter (matrixItems stdOf df method useNorm)
      (matrixItems_nodup stdOf df method useNorm) _
      (fun x => cellVal stdOf df method useNorm u x = 0 ∧ minSim ≤ sim p x)
      (fun x => (sim p x * cellVal stdOf df method useNorm u p, |sim p x|)) o]
    by_cases h1 : p = o <;> by_cases h2 : minSim ≤ sim p o <;>
      simp [ho, hcell, h1, h2, Ne.symm]
  simp only [hinner]
  rw [flatMap_if_singleton _ (fun p => (p != o && decide (minSim ≤ sim p o)) = true)]
  congr 1
  apply List.filter_congr
  intro p hp
  by_cases h : p = o <;> simp [h]

theorem lookup2_of_mem_nodup {d : List (ℕ × ℚ × ℚ)} {e : ℕ × ℚ × ℚ}
    (he : e ∈ d) (hnd : (d.map (·.1)).Nodup) :
    lookup2 d e.1 = some e.2 := by
  induction d with
  | nil => cases he
  | cons a t ih =>
    obtain ⟨k1, s1, w1⟩ := a
    have hnd2 : k1 ∉ t.map (·.1) ∧ (t.map (·.1)).Nodup := by
      rw [List.map_cons, List.nodup_cons] at hnd
      exact hnd
    obtain ⟨hk, ht⟩ := hnd2
    rcases List.mem_cons.mp he with rfl | he2
    · simp [lookup2]
    · have hne : ¬ k1 = e.1 := by
        intro h
        exact hk (h ▸ List.mem_map.mpr ⟨e, he2, rfl⟩)
      simpa [lookup2, hne] using ih he2 ht

/-- C2 (amended): for every unrated item `o` (a surviving matrix column
whose entry for the user is 0), the score
dictionary holds `score[o] = Σ sim(p,o)·rating(p)` and
`weight[o] = Σ |sim(p,o)|` over the rated items `p ≠ o` with
`sim(p,o) ≥ min_similarity`; and every row of the result carries
`score/weight` when the accumulated weight is positive, and the raw
accumulated score otherwise.  A zero-weight candidate (possible only when
`min_similarity ≤ 0`) is NOT excluded: it is returned with its raw
accumulated score — see the counterexample. -/
theorem score_accumulation_spec (sim : ℕ → ℕ → ℚ) (stdOf : ℕ → ℚ) (df : List Rating)
    (user n : ℕ) (minSim : ℚ) (useNorm : Bool) (method : String)
    (res : List RecRow) (o : ℕ)
    (ho : o ∈ matrixItems stdOf df method useNorm)
    (hcell : cellVal stdOf df method useNorm user o = 0)
    (hok : recommend_for_user sim stdOf df user n minSim useNorm method = .ok res) :
    (lookup2 (buildDict (contribs sim stdOf df method useNorm minSim user)) o =
      if ((ratedItems stdOf df method useNorm user).filter
            (fun p => p != o && decide (minSim ≤ sim p o))) = [] then none
      else some
        ((((ratedItems stdOf df method useNorm user).filter
            (fun p => p != o && decide (minSim ≤ sim p o))).map
            (fun p => sim p o * cellVal stdOf df method useNorm user p)).sum,
         (((ratedItems stdOf df method useNorm user).filter
            (fun p => p != o && decide (minSim ≤ sim p o))).map
            (fun p => |sim p o|)).sum)) ∧
    (∀ row ∈ res, ∀ s w,
      lookup2 (buildDict (contribs sim stdOf df method useNorm minSim user))
          row.product = some (s, w) →
      row.score = if 0 < w then s / w else s) := by
  constructor
  · rw [lookup2_buildDict,
      contribs_filter_key sim stdOf df method useNorm minSim user o ho hcell]
    by_cases hps : ((ratedItems stdOf df method useNorm user).filter
        (fun p => p != o && decide (minSim ≤ sim p o))) = []
    · simp [hps]
    · rw [if_neg hps, if_neg (fun h => hps (List.map_eq_nil_iff.mp h))]
      rw [List.map_map, List.map_map]
      rfl
  · intro row hrow s w hlook
    unfold recommend_for_user at hok
    simp only [] at hok
    by_cases h1 : user ∉ userIds df
    · rw [if_pos h1] at hok; cases hok
    rw [if_neg h1] at hok
    by_cases h2 : (useNorm && !validMethod method) = true
    · rw [if_pos h2] at hok; cases hok
    rw [if_neg h2] at hok
    by_cases hk : user ∉ matrixUsers stdOf df method useNorm
    · rw [if_pos hk] at hok; cases hok
    rw [if_neg hk] at hok
    by_cases h3 : ratedItems stdOf df method useNorm user = []
    · rw [if_pos h3] at hok
      exfalso
      have hc0 : contribs sim stdOf df method useNorm minSim user = [] := by
        unfold contribs
        rw [h3]
        rfl
      rw [hc0] at hlook
      cases hlook
    rw [if_neg h3] at hok
    by_cases h4 : buildDict (contribs sim stdOf df method useNorm minSim user) = []
    · rw [if_pos h4] at hok
      obtain rfl : ([] : List RecRow) = res := by simpa using hok
      cases hrow
    rw [if_neg h4] at hok
    obtain rfl :
        (((sortDesc (finalScores
            (buildDict (contribs sim stdOf df method useNorm minSim user)))).take n).map
          (fun pr => (⟨pr.1, pr.2,
            estimateRow stdOf df method useNorm user pr.2⟩ : RecRow))) = res := by
      simpa using hok
    obtain ⟨pr, hpr, hrowEq⟩ := List.mem_map.mp hrow
    have hpr3 : pr ∈ finalScores
        (buildDict (contribs sim stdOf df method useNorm minSim user)) :=
      (sortDesc_perm _).mem_iff.mp ((List.take_sublist n _).mem hpr)
    obtain ⟨e, he, hprEq⟩ := List.mem_map.mp hpr3
    have hlooke : lookup2
        (buildDict (contribs sim stdOf df method useNorm minSim user)) e.1 =
        some e.2 :=
      lookup2_of_mem_nodup he (buildDict_keys_nodup _)
    have hprod : row.product = e.1 := by rw [← hrowEq, ← hprEq]
    have hscore : row.score = if 0 < e.2.2 then e.2.1 / e.2.2 else e.2.1 := by
      rw [← hrowEq, ← hprEq]
    rw [hprod] at hlook
    rw [hlooke] at hlook
    obtain ⟨hs, hw⟩ : e.2.1 = s ∧ e.2.2 = w := by
      have := Option.some.injEq _ _ ▸ hlook
      exact ⟨congrArg Prod.fst (by simpa using this),
        congrArg Prod.snd (by simpa using this)⟩
    rw [hscore, hs, hw]

/-- Witness for C2 at the `df2` fixture with `min_similarity = 0` and
`o = 20`: the single rated item 10 has `sim(10, 20) = 0 ≥ 0`, so
`score[20] = 0·5 = 0` and `weight[20] = |0| = 0`. -/
theorem score_accumulation_spec_witness :
    (20 ∈ matrixItems (fun _ => 0) df2 "mean_center" false) ∧
    cellVal (fun _ => 0) df2 "mean_center" false 1 20 = 0 ∧
    (lookup2 (buildDict (contribs sim2 (fun _ => 0) df2 "mean_center" false 0 1)) 20 =
      if ((ratedItems (fun _ => 0) df2 "mean_center" false 1).filter
            (fun p => p != 20 && decide ((0 : ℚ) ≤ sim2 p 20))) = [] then none
      else some
        ((((ratedItems (fun _ => 0) df2 "mean_center" false 1).filter
            (fun p => p != 20 && decide ((0 : ℚ) ≤ sim2 p 20))).map
            (fun p => sim2 p 20 * cellVal (fun _ => 0) df2 "mean_center" false 1 p)).sum,
         (((ratedItems (fun _ => 0) df2 "mean_center" false 1).filter
            (fun p => p != 20 && decide ((0 : ℚ) ≤ sim2 p 20))).map
            (fun p => |sim2 p 20|)).sum)) ∧
    (∀ row ∈ ([⟨20, 0, some (1 / 2)⟩] : List RecRow), ∀ s w,
      lookup2 (buildDict (contribs sim2 (fun _ => 0) df2 "mean_center" false 0 1))
          row.product = some (s, w) →
      row.score = if 0 < w then s / w else s) := by
  have h := score_accumulation_spec sim2 (fun _ => 0) df2 1 10 0 false "mean_center"
    [⟨20, 0, some (1 / 2)⟩] 20 (by with_unfolding_all decide)
    (by with_unfolding_all decide) df2_eval
  exact ⟨by with_unfolding_all decide, by with_unfolding_all decide, h.1, h.2⟩

/-- C2's exclusion clause is false: on `df2` with `min_similarity = 0`, the
candidate 20 accumulates weight 0 (its only similarity is exactly 0), yet
it is returned with its raw accumulated score 0 instead of being excluded.
`sim2` is the exact cosine matrix of the raw `df2` matrix (orthogonal
columns). -/
theorem score_zero_weight_counterexample :
    CosCompatible sim2 (fun _ => 0) df2 "mean_center" false ∧
    lookup2 (buildDict (contribs sim2 (fun _ => 0) df2 "mean_center" false 0 1)) 20 =
      some (0, 0) ∧
    recommend_for_user sim2 (fun _ => 0) df2 1 10 0 false "mean_center" =
      .ok [⟨20, 0, some (1 / 2)⟩] :=
  ⟨df2_cosine, by with_unfolding_all decide, df2_eval⟩

/-! ## Claim C8: estimated rating in the valid range -/

theorem clipQ_mem (x : ℚ) : 1 / 2 ≤ clipQ x ∧ clipQ x ≤ 5 := by
  unfold clipQ
  constructor
  · refine le_min (by norm_num) ?_
    exact le_max_left _ _
  · exact min_le_left _ _

theorem meanL_mem {l : List ℚ} {a b : ℚ} (hne : l ≠ [])
    (h : ∀ x ∈ l, a ≤ x ∧ x ≤ b) : a ≤ meanL l ∧ meanL l ≤ b := by
  have hlen : 0 < (l.length : ℚ) := by
    have := List.length_pos.mpr hne
    exact_mod_cast this
  have hlo : a * l.length ≤ l.sum := by
    have := List.card_nsmul_le_sum l a (fun x hx => (h x hx).1)
    simpa [nsmul_eq_mul, mul_comm] using this
  have hhi : l.sum ≤ b * l.length := by
    have := List.sum_le_card_nsmul l b (fun x hx => (h x hx).2)
    simpa [nsmul_eq_mul, mul_comm] using this
  unfold meanL
  constructor
  · rw [le_div_iff₀ hlen]
    exact hlo
  · rw [div_le_iff₀ hlen]
    exact hhi

/-- Every row of `get_popular_items` carries the unclipped mean rating of
an item present in the table; with in-range inputs it stays in range. -/
theorem get_popular_row_mean (df : List Rating) (n minR : ℕ) (row : RecRow)
    (hrange : ∀ r ∈ df, 1 / 2 ≤ r.rating ∧ r.rating ≤ 5)
    (hrow : row ∈ get_popular_items df n minR) :
    ∃ e, row.estimated = some e ∧ 1 / 2 ≤ e ∧ e ≤ 5 := by
  simp only [get_popular_items] at hrow
  obtain ⟨pm, hpm, hrowEq⟩ := List.mem_map.mp hrow
  have hpm2 := (sortDesc_perm _).mem_iff.mp ((List.take_sublist n _).mem hpm)
  obtain ⟨p, hp, heq⟩ := List.mem_filterMap.mp hpm2
  split at heq
  next hcond =>
    have hpmEq : pm =
        (p, meanL ((df.filter (fun r => r.product == p)).map (·.rating))) := by
      simpa using heq.symm
    have hne : ((df.filter (fun r => r.product == p)).map (·.rating)) ≠ [] := by
      obtain ⟨r, hr, hrp⟩ := (mem_sortedItems df p).mp hp
      intro hnil
      have hmem2 : r ∈ df.filter (fun r2 => r2.product == p) :=
        List.mem_filter.mpr ⟨hr, by simp [hrp]⟩
      rw [List.map_eq_nil_iff] at hnil
      rw [hnil] at hmem2
      cases hmem2
    have hmean := meanL_mem hne (fun x hx => by
      obtain ⟨r, hr, rfl⟩ := List.mem_map.mp hx
      exact hrange r (List.mem_of_mem_filter hr))
    refine ⟨pm.2, ?_, ?_⟩
    · rw [← hrowEq]
    · rw [hpmEq]
      exact hmean
  next hcond => cases heq

/-- A positive z-score matrix entry forces the user to have at least two
ratings (with fewer, every normalized value is NaN and the zero-filled
entry is 0). -/
theorem countU_ge_two_of_rated_z (stdOf : ℕ → ℚ) (df : List Rating) (user p : ℕ)
    (h : 0 < cellVal stdOf df "z_score" true user p) : 2 ≤ countU df user := by
  by_contra hlt
  have hvs : ((df.filter (fun r => r.user == user && r.product == p)).filterMap
      (fun r => if (true : Bool) then normVal stdOf df "z_score" r.user r.rating
        else some r.rating)) = [] := by
    refine List.filterMap_eq_nil_iff.mpr ?_
    intro r hr
    have hru : r.user = user := by
      have h2 := (List.mem_filter.mp hr).2
      rw [Bool.and_eq_true] at h2
      exact eq_of_beq h2.1
    rw [if_pos rfl]
    unfold normVal
    rw [if_neg (by decide), if_pos rfl, if_pos (by rw [hru]; omega)]
  unfold cellVal at h
  rw [hvs] at h
  norm_num at h

/-- C8: assuming the data-model precondition that every input rating lies
in the valid range `[0.5, 5.0]`, every row returned by
`recommend_for_user` carries an `estimated_rating` that is a real value in
that range: the similarity path clips explicitly; the cold-start path
returns unclipped means of raw ratings, which stay in range because the
inputs do. -/
theorem estimated_rating_in_range (sim : ℕ → ℕ → ℚ) (stdOf : ℕ → ℚ)
    (df : List Rating) (user n : ℕ) (minSim : ℚ) (useNorm : Bool) (method : String)
    (res : List RecRow)
    (hrange : ∀ r ∈ df, 1 / 2 ≤ r.rating ∧ r.rating ≤ 5)
    (hok : recommend_for_user sim stdOf df user n minSim useNorm method = .ok res) :
    ∀ row ∈ res, ∃ e, row.estimated = some e ∧ 1 / 2 ≤ e ∧ e ≤ 5 := by
  intro row hrow
  unfold recommend_for_user at hok
  simp only [] at hok
  by_cases h1 : user ∉ userIds df
  · rw [if_pos h1] at hok; cases hok
  rw [if_neg h1] at hok
  by_cases h2 : (useNorm && !validMethod method) = true
  · rw [if_pos h2] at hok; cases hok
  rw [if_neg h2] at hok
  by_cases hk : user ∉ matrixUsers stdOf df method useNorm
  · rw [if_pos hk] at hok; cases hok
  rw [if_neg hk] at hok
  by_cases h3 : ratedItems stdOf df method useNorm user = []
  · -- cold-start path: mean ratings of popular items
    rw [if_pos h3] at hok
    obtain rfl : get_popular_items df n = res := by simpa using hok
    exact get_popular_row_mean df n 5 row hrange hrow
  rw [if_neg h3] at hok
  by_cases h4 : buildDict (contribs sim stdOf df method useNorm minSim user) = []
  · rw [if_pos h4] at hok
    obtain rfl : ([] : List RecRow) = res := by simpa using hok
    cases hrow
  rw [if_neg h4] at hok
  obtain rfl :
      (((sortDesc (finalScores
          (buildDict (contribs sim stdOf df method useNorm minSim user)))).take n).map
        (fun pr => (⟨pr.1, pr.2,
          estimateRow stdOf df method useNorm user pr.2⟩ : RecRow))) = res := by
    simpa using hok
  obtain ⟨pr, hpr, hrowEq⟩ := List.mem_map.mp hrow
  have hest : row.estimated = estimateRow stdOf df method useNorm user pr.2 := by
    rw [← hrowEq]
  unfold estimateRow at hest
  by_cases hu : useNorm = true
  · subst hu
    rw [if_pos rfl] at hest
    by_cases hm1 : method = "mean_center"
    · rw [if_pos hm1] at hest
      exact ⟨_, hest, clipQ_mem _⟩
    rw [if_neg hm1] at hest
    by_cases hm2 : method = "z_score"
    · rw [if_pos hm2] at hest
      obtain ⟨p, hp⟩ := List.exists_mem_of_ne_nil _ h3
      have hcellp : 0 < cellVal stdOf df method true user p := by
        have := (List.mem_filter.mp hp).2
        simpa using this
      have hcnt : 2 ≤ countU df user := by
        refine countU_ge_two_of_rated_z stdOf df user p ?_
        rw [← hm2]
        exact hcellp
      rw [if_neg (by omega)] at hest
      exact ⟨_, hest, clipQ_mem _⟩
    · rw [if_neg hm2] at hest
      exact ⟨_, hest, clipQ_mem _⟩
  · rw [if_neg hu] at hest
    exact ⟨_, hest, clipQ_mem _⟩

/-- Witness for C8 at the `df7` fixture (ratings 2, 3, 4 all in range). -/
theorem estimated_rating_in_range_witness :
    (∀ r ∈ df7, 1 / 2 ≤ r.rating ∧ r.rating ≤ 5) ∧
    (∀ row ∈ ([⟨5, 3, some 3⟩, ⟨3, 3, some 3⟩] : List RecRow),
      ∃ e, row.estimated = some e ∧ 1 / 2 ≤ e ∧ e ≤ 5) :=
  ⟨by with_unfolding_all decide,
    estimated_rating_in_range sim7 (fun _ => 0) df7 1 10 (1 / 10) false "mean_center" _
      (by with_unfolding_all decide) df7_eval⟩

/-! ## Claim C9: cold-start fallback -/

/-- C9 (amended): if the target user exists, the configuration is valid,
the user's row survives the pivot (at least one non-NaN value in the
chosen rating column), and every entry of that row is 0,
`recommend_for_user` returns exactly `get_popular_items df n` (minimum
rating count 5, ranked by mean rating descending, top `n`).  A user all of
whose values are NaN is instead dropped by `pivot_table` and the call
raises `KeyError` rather than falling back — see the counterexample. -/
theorem cold_start_returns_popular (sim : ℕ → ℕ → ℚ) (stdOf : ℕ → ℚ)
    (df : List Rating) (user n : ℕ) (minSim : ℚ) (useNorm : Bool) (method : String)
    (hmem : user ∈ userIds df)
    (hval : useNorm = true → validMethod method = true)
    (hrow : user ∈ matrixUsers stdOf df method useNorm)
    (hzero : ∀ p ∈ sortedItems df, cellVal stdOf df method useNorm user p = 0) :
    recommend_for_user sim stdOf df user n minSim useNorm method =
      .ok (get_popular_items df n 5) := by
  unfold recommend_for_user
  rw [if_neg (by simpa using hmem)]
  have h2 : ¬ (useNorm && !validMethod method) = true := by
    cases hb : useNorm with
    | false => simp
    | true => simp [hval hb]
  rw [if_neg h2]
  rw [if_neg (not_not_intro hrow)]
  have h3 : ratedItems stdOf df method useNorm user = [] := by
    unfold ratedItems
    refine List.filter_eq_nil_iff.mpr ?_
    intro p hp
    simp [hzero p (List.mem_of_mem_filter hp)]
  rw [if_pos h3]

/-- Witness for C9: on `df9` user 1's two ratings are constant, so
mean-centering zeroes the whole row (the zeroes are real values, not NaN,
so the row survives) and the call falls back to `get_popular_items`
(which is empty here: no item has 5 ratings). -/
theorem cold_start_returns_popular_witness :
    (1 ∈ userIds df9) ∧
    (1 ∈ matrixUsers (fun _ => 0) df9 "mean_center" true) ∧
    (∀ p ∈ sortedItems df9, cellVal (fun _ => 0) df9 "mean_center" true 1 p = 0) ∧
    recommend_for_user sim9 (fun _ => 0) df9 1 10 (1 / 10) true "mean_center" =
      .ok (get_popular_items df9 10 5) :=
  ⟨by decide, by with_unfolding_all decide, by with_unfolding_all decide,
    cold_start_returns_popular sim9 (fun _ => 0) df9 1 10 (1 / 10) true "mean_center"
      (by decide) (fun _ => by decide) (by with_unfolding_all decide)
      (by with_unfolding_all decide)⟩

/-- C9's fallback clause fails on the pivot's `dropna` corner: on `dfk`
under z-score normalization, user 1 exists and has no nonzero matrix
entry (their whole row is dropped: pandas' one-sample `std` is NaN, so
their single normalized value is NaN), but `recommend_for_user` raises
`KeyError` at `matrix.loc[user_id]` instead of returning
`get_popular_items`.  The zero similarity oracle is the exact cosine
matrix here (every surviving column is a zero vector, which sklearn maps
to cosine 0) and the zero std oracle matches pandas (user 2's ratings are
constant). -/
theorem cold_start_dropped_row_counterexample :
    StdCompat dfk (fun _ => 0) ∧
    CosCompatible (fun _ _ => 0) (fun _ => 0) dfk "z_score" true ∧
    (1 ∈ userIds dfk) ∧ validMethod "z_score" = true ∧
    recommend_for_user (fun _ _ => 0) (fun _ => 0) dfk 1 10 (1 / 10) true "z_score" =
      .error .keyError := by
  refine ⟨by with_unfolding_all decide, by with_unfolding_all decide, by decide,
    by decide, ?_⟩
  with_unfolding_all decide

/-! ## Claim C10: evaluation-harness failure isolation -/

theorem predPairs_foldl (predictFn : List Rating → ℕ → ℕ → Except Unit ℚ)
    (train : List Rating) (test : List Rating) (acc : List (ℚ × ℚ)) :
    test.foldl (fun acc r =>
      match predictFn train r.user r.product with
      | .ok p => acc ++ [(r.rating, p)]
      | .error _ => acc) acc = acc ++ successPairs predictFn train test := by
  induction test generalizing acc with
  | nil => simp [successPairs]
  | cons r t ih =>
    cases h : predictFn train r.user r.product with
    | ok p =>
      simp [successPairs, List.foldl_cons, h, ih, List.filterMap_cons]
    | error e =>
      simp [successPairs, List.foldl_cons, h, ih, List.filterMap_cons]

theorem successPairs_filter (predictFn : List Rating → ℕ → ℕ → Except Unit ℚ)
    (train test : List Rating) :
    successPairs predictFn train
        (test.filter (fun r => match predictFn train r.user r.product with
          | .ok _ => true
          | .error _ => false)) =
      successPairs predictFn train test := by
  induction test with
  | nil => rfl
  | cons r t ih =>
    cases h : predictFn train r.user r.product with
    | ok p =>
      simp only [successPairs, List.filter_cons, h, List.filterMap_cons] at ih ⊢
      simp [h, ih]
    | error e =>
      simp only [successPairs, List.filter_cons, h, List.filterMap_cons] at ih ⊢
      simp [h, ih]

/-- The per-user loop of `evaluate_recommendations`, acting entry-wise on
any accumulator of per-`k` metric lists: exactly the contributing
(`okUser`) users append their metrics, in order. -/
theorem evalRecs_fold_inv (recFn : List Rating → ℕ → ℕ → Except Unit (List RecRow))
    (train test : List Rating) (thr : ℚ) (maxK : ℕ) (us : List ℕ)
    (init : List (ℕ × List ℚ × List ℚ × List ℚ)) :
    us.foldl (fun acc u =>
      let relevant := relevantItems test thr u
      if relevant = ∅ then acc
      else
        match recFn train u maxK with
        | .error _ => acc
        | .ok recs =>
          if recs.isEmpty then acc
          else
            let recd := recs.map (·.product)
            acc.map (fun e => (e.1,
              e.2.1 ++ [precision_at_k recd relevant e.1],
              e.2.2.1 ++ [recall_at_k recd relevant e.1],
              e.2.2.2 ++ [f1_score_at_k recd relevant e.1]))) init =
      init.map (fun e => (e.1,
        e.2.1 ++ (us.filter (okUser recFn train test thr maxK)).map
          (fun u => precision_at_k (recProducts recFn train maxK u)
            (relevantItems test thr u) e.1),
        e.2.2.1 ++ (us.filter (okUser recFn train test thr maxK)).map
          (fun u => recall_at_k (recProducts recFn train maxK u)
            (relevantItems test thr u) e.1),
        e.2.2.2 ++ (us.filter (okUser recFn train test thr maxK)).map
          (fun u => f1_score_at_k (recProducts recFn train maxK u)
            (relevantItems test thr u) e.1))) := by
  induction us generalizing init with
  | nil =>
    simp only [List.foldl_nil, List.filter_nil, List.map_nil, List.append_nil]
    symm
    refine List.map_congr_left ?_ |>.trans (List.map_id _)
    intro e _
    rfl
  | cons u t ih =>
    rw [List.foldl_cons]
    by_cases hrel : relevantItems test thr u = ∅
    · have hok : okUser recFn train test thr maxK u = false := by
        simp [okUser, hrel]
      rw [if_pos hrel, ih, List.filter_cons, hok]
      simp
    · rw [if_neg hrel]
      cases hrec : recFn train u maxK with
      | error e =>
        have hok : okUser recFn train test thr maxK u = false := by
          simp [okUser, hrec]
        rw [ih, List.filter_cons, hok]
        simp
      | ok recs =>
        by_cases hemp : recs.isEmpty
        · have hok : okUser recFn train test thr maxK u = false := by
            simp [okUser, hrec, hemp]
          dsimp only
          rw [if_pos hemp, ih, List.filter_cons, hok]
          simp
        · have hok : okUser recFn train test thr maxK u = true := by
            simp [okUser, hrel, hrec, hemp]
          have hprod : recProducts recFn train maxK u = recs.map (·.product) := by
            simp [recProducts, hrec]
          dsimp only
          rw [if_neg hemp, ih, List.filter_cons, hok, List.map_map]
          refine List.map_congr_left ?_
          intro e _
          simp [hprod, Function.comp]

/-- C10: the evaluation harness is failure-isolating.
`evaluate_recommendations` equals the aggregate over exactly the test
users whose relevant-item set is nonempty, whose `recommend_func` call
does NOT raise, and whose recommendation list is nonempty (each `k`
reported only when at least one user was evaluated, as the mean of the
per-user metrics); and `evaluate_rating_prediction` returns the distinct
non-fatal empty result iff no prediction succeeds, and otherwise the
RMSE (as its square, the MSE), MAE and count over exactly the successful
predictions — dropping the failing records from the test set does not
change the outcome. -/
theorem evaluation_failure_isolation
    (recFn : List Rating → ℕ → ℕ → Except Unit (List RecRow))
    (predictFn : List Rating → ℕ → ℕ → Except Unit ℚ)
    (train test : List Rating) (ks : List ℕ) (thr : ℚ) :
    (evaluate_recommendations recFn train test ks thr =
      ks.filterMap (fun k =>
        if ((uniqueUsers test).filter
              (okUser recFn train test thr (ks.foldl max 0))) = [] then none
        else some (k,
          meanL ((((uniqueUsers test).filter
              (okUser recFn train test thr (ks.foldl max 0)))).map
            (fun u => precision_at_k (recProducts recFn train (ks.foldl max 0) u)
              (relevantItems test thr u) k)),
          meanL ((((uniqueUsers test).filter
              (okUser recFn train test thr (ks.foldl max 0)))).map
            (fun u => recall_at_k (recProducts recFn train (ks.foldl max 0) u)
              (relevantItems test thr u) k)),
          meanL ((((uniqueUsers test).filter
              (okUser recFn train test thr (ks.foldl max 0)))).map
            (fun u => f1_score_at_k (recProducts recFn train (ks.foldl max 0) u)
              (relevantItems test thr u) k))))) ∧
    (evaluate_rating_prediction predictFn train test =
      if successPairs predictFn train test = [] then none
      else some
        (calculate_rmse_sq ((successPairs predictFn train test).map (·.1))
          ((successPairs predictFn train test).map (·.2)),
         calculate_mae ((successPairs predictFn train test).map (·.1))
          ((successPairs predictFn train test).map (·.2)),
         (successPairs predictFn train test).length)) ∧
    (evaluate_rating_prediction predictFn train test =
      evaluate_rating_prediction predictFn train
        (test.filter (fun r => match predictFn train r.user r.product with
          | .ok _ => true
          | .error _ => false))) := by
  refine ⟨?_, ?_, ?_⟩
  · unfold evaluate_recommendations
    simp only []
    rw [evalRecs_fold_inv, List.map_map, List.filterMap_map]
    refine List.filterMap_congr ?_
    intro k _
    simp only [Function.comp, List.nil_append]
    by_cases hempty : ((uniqueUsers test).filter
        (okUser recFn train test thr (ks.foldl max 0))) = []
    · simp [hempty]
    · simp [hempty, List.map_eq_nil_iff]
  · unfold evaluate_rating_prediction
    simp only []
    rw [predPairs_foldl]
    simp only [List.nil_append]
    by_cases hempty : successPairs predictFn train test = []
    · simp [hempty]
    · simp [hempty, List.isEmpty_iff]
  · unfold evaluate_rating_prediction
    simp only []
    rw [predPairs_foldl, predPairs_foldl, successPairs_filter]

/-! ## Claim C3: train/test split -/

theorem countU_eq_filter_length (df : List Rating) (u : ℕ) :
    countU df u = (df.filter (fun r => r.user == u)).length := by
  unfold countU ratingsOf
  rw [List.length_map]

theorem range_filterMap_get (l : List Rating) :
    (List.range l.length).filterMap (fun i => l.get? i) = l := by
  induction l with
  | nil => simp
  | cons a t ih =>
    rw [List.length_cons, List.range_succ_eq_map, List.filterMap_cons]
    simp only [List.get?_cons_zero, List.filterMap_map]
    have hc : ((fun i => (a :: t).get? i) ∘ Nat.succ) = fun i => t.get? i := rfl
    rw [hc, ih]

theorem filterMap_get_length (rows : List Rating) (idx : List ℕ)
    (h : ∀ i ∈ idx, i < rows.length) :
    (idx.filterMap (fun i => rows.get? i)).length = idx.length := by
  induction idx with
  | nil => rfl
  | cons i t ih =>
    rw [List.filterMap_cons, List.get?_eq_get (h i (List.mem_cons_self i t))]
    simp only [List.length_cons]
    rw [ih (fun j hj => h j (List.mem_cons_of_mem _ hj))]

/-- One `train_test_split` call: the two sides partition the user's rows
(as a multiset) and are both nonempty. -/
theorem splitUser_spec (rows : List Rating) (perm : List ℕ) (nTest : ℕ)
    (tr te : List Rating)
    (hp : perm.Perm (List.range rows.length))
    (h : splitUser perm rows nTest = some (tr, te)) :
    (tr ++ te).Perm rows ∧ tr ≠ [] ∧ te ≠ [] := by
  unfold splitUser at h
  split_ifs at h with hcond
  push_neg at hcond
  obtain ⟨hn0, hnlt⟩ := hcond
  obtain ⟨rfl, rfl⟩ : (perm.drop nTest).filterMap (fun i => rows.get? i) = tr ∧
      (perm.take nTest).filterMap (fun i => rows.get? i) = te := by
    simpa using h
  have hbound : ∀ i ∈ perm, i < rows.length := fun i hi =>
    List.mem_range.mp (hp.mem_iff.mp hi)
  have hlen : perm.length = rows.length := by
    have := hp.length_eq
    simpa using this
  refine ⟨?_, ?_, ?_⟩
  · have h1 : ((perm.drop nTest).filterMap (fun i => rows.get? i) ++
        (perm.take nTest).filterMap (fun i => rows.get? i)).Perm
        ((perm.take nTest).filterMap (fun i => rows.get? i) ++
          (perm.drop nTest).filterMap (fun i => rows.get? i)) :=
      List.perm_append_comm
    have h2 : (perm.take nTest).filterMap (fun i => rows.get? i) ++
        (perm.drop nTest).filterMap (fun i => rows.get? i) =
        perm.filterMap (fun i => rows.get? i) := by
      rw [← List.filterMap_append, List.take_append_drop]
    have h3 : (perm.filterMap (fun i => rows.get? i)).Perm
        ((List.range rows.length).filterMap (fun i => rows.get? i)) :=
      hp.filterMap _
    have h4 : (List.range rows.length).filterMap (fun i => rows.get? i) = rows :=
      range_filterMap_get rows
    rw [h2] at h1
    rw [h4] at h3
    exact h1.trans h3
  · have hlen2 : ((perm.drop nTest).filterMap (fun i => rows.get? i)).length =
        perm.length - nTest := by
      rw [filterMap_get_length rows _ (fun i hi => hbound i (List.mem_of_mem_drop hi))]
      exact List.length_drop nTest perm
    intro hnil
    rw [hnil] at hlen2
    simp only [List.length_nil] at hlen2
    omega
  · have hlen2 : ((perm.take nTest).filterMap (fun i => rows.get? i)).length =
        min nTest perm.length := by
      rw [filterMap_get_length rows _ (fun i hi => hbound i (List.mem_of_mem_take hi))]
      exact List.length_take nTest perm
    intro hnil
    rw [hnil] at hlen2
    simp only [List.length_nil] at hlen2
    omega

/-- The per-user split loop: train/test rows partition each listed user's
rows, both sides are nonempty per listed user, and no row of an unlisted
user appears. -/
theorem splitUsers_spec (shuffle : ℕ → ℕ → List ℕ) (df : List Rating) (t : ℚ)
    (seed : ℕ) (us : List ℕ) (tr te : List Rating)
    (hs : IsShuffler shuffle) (hnd : us.Nodup)
    (h : splitUsers shuffle df t seed us = some (tr, te)) :
    (∀ r ∈ tr ++ te, r ∈ df ∧ r.user ∈ us) ∧
    (∀ u ∈ us,
      ((tr.filter (fun r => r.user == u)) ++ (te.filter (fun r => r.user == u))).Perm
        (df.filter (fun r => r.user == u)) ∧
      tr.filter (fun r => r.user == u) ≠ [] ∧
      te.filter (fun r => r.user == u) ≠ []) ∧
    (∀ u, u ∉ us →
      tr.filter (fun r => r.user == u) = [] ∧ te.filter (fun r => r.user == u) = []) := by
  induction us generalizing tr te with
  | nil =>
    obtain ⟨rfl, rfl⟩ : ([] : List Rating) = tr ∧ ([] : List Rating) = te := by
      simpa [splitUsers] using h
    simp
  | cons u rest ih =>
    rcases List.nodup_cons.mp hnd with ⟨hu, hndr⟩
    unfold splitUsers at h
    simp only [] at h
    cases he1 : splitUser (shuffle seed (df.filter (fun r => r.user == u)).length)
        (df.filter (fun r => r.user == u))
        (nTestOf t (df.filter (fun r => r.user == u)).length) with
    | none => rw [he1] at h; simp at h
    | some p1 =>
      obtain ⟨trU, teU⟩ := p1
      rw [he1] at h
      simp only [Option.bind_eq_bind, Option.some_bind] at h
      cases he2 : splitUsers shuffle df t seed rest with
      | none => rw [he2] at h; simp at h
      | some p2 =>
        obtain ⟨trR, teR⟩ := p2
        rw [he2] at h
        simp only [Option.bind_eq_bind, Option.some_bind] at h
        obtain ⟨rfl, rfl⟩ : trU ++ trR = tr ∧ teU ++ teR = te := by
          simpa using h
        obtain ⟨hperm, htrne, htene⟩ := splitUser_spec _ _ _ _ _
          (hs seed (df.filter (fun r => r.user == u)).length) he1
        obtain ⟨ihMem, ihPart, ihOut⟩ := ih trR teR hndr he2
        have hmemU : ∀ r ∈ trU ++ teU, r ∈ df ∧ r.user = u := by
          intro r hr
          have hr2 : r ∈ df.filter (fun r2 => r2.user == u) := hperm.mem_iff.mp hr
          have := List.mem_filter.mp hr2
          exact ⟨this.1, by simpa using this.2⟩
        have htrUall : ∀ r ∈ trU, r.user = u := fun r hr =>
          (hmemU r (List.mem_append_left _ hr)).2
        have hteUall : ∀ r ∈ teU, r.user = u := fun r hr =>
          (hmemU r (List.mem_append_right _ hr)).2
        refine ⟨?_, ?_, ?_⟩
        · intro r hr
          rcases List.mem_append.mp hr with hr1 | hr1
          · rcases List.mem_append.mp hr1 with hr2 | hr2
            · obtain ⟨hdf, hru⟩ := hmemU r (List.mem_append_left _ hr2)
              exact ⟨hdf, by simp [hru]⟩
            · obtain ⟨hdf, hru⟩ := ihMem r (List.mem_append_left _ hr2)
              exact ⟨hdf, List.mem_cons_of_mem _ hru⟩
          · rcases List.mem_append.mp hr1 with hr2 | hr2
            · obtain ⟨hdf, hru⟩ := hmemU r (List.mem_append_right _ hr2)
              exact ⟨hdf, by simp [hru]⟩
            · obtain ⟨hdf, hru⟩ := ihMem r (List.mem_append_right _ hr2)
              exact ⟨hdf, List.mem_cons_of_mem _ hru⟩
        · intro v hv
          rcases List.mem_cons.mp hv with rfl | hv2
          · have htrU : trU.filter (fun r => r.user == v) = trU :=
              List.filter_eq_self.mpr (fun r hr => by simp [htrUall r hr])
            have hteU : teU.filter (fun r => r.user == v) = teU :=
              List.filter_eq_self.mpr (fun r hr => by simp [hteUall r hr])
            obtain ⟨htrR, hteR⟩ := ihOut v hu
            rw [List.filter_append, List.filter_append, htrU, hteU, htrR, hteR,
              List.append_nil, List.append_nil]
            exact ⟨hperm, by simpa [htrU] using htrne, by simpa [hteU] using htene⟩
          · have hvne : v ≠ u := fun hvu => hu (hvu ▸ hv2)
            have htrU : trU.filter (fun r => r.user == v) = [] :=
              List.filter_eq_nil_iff.mpr (fun r hr => by
                simp [htrUall r hr, Ne.symm hvne])
            have hteU : teU.filter (fun r => r.user == v) = [] :=
              List.filter_eq_nil_iff.mpr (fun r hr => by
                simp [hteUall r hr, Ne.symm hvne])
            obtain ⟨hPerm2, htrne2, htene2⟩ := ihPart v hv2
            rw [List.filter_append, List.filter_append, htrU, hteU,
              List.nil_append, List.nil_append]
            exact ⟨hPerm2, htrne2, htene2⟩
        · intro v hv
          have hvne : v ≠ u := fun hvu => hv (hvu ▸ List.mem_cons_self u rest)
          have hvnr : v ∉ rest := fun hvr => hv (List.mem_cons_of_mem _ hvr)
          have htrU : trU.filter (fun r => r.user == v) = [] :=
            List.filter_eq_nil_iff.mpr (fun r hr => by
              simp [htrUall r hr, Ne.symm hvne])
          have hteU : teU.filter (fun r => r.user == v) = [] :=
            List.filter_eq_nil_iff.mpr (fun r hr => by
              simp [hteUall r hr, Ne.symm hvne])
          obtain ⟨htrR, hteR⟩ := ihOut v hvnr
          rw [List.filter_append, List.filter_append, htrU, hteU, htrR, hteR]
          simp

theorem splitUsers_congr (shuffle shuffle2 : ℕ → ℕ → List ℕ) (df : List Rating)
    (t : ℚ) (seed : ℕ) (us : List ℕ)
    (heq : ∀ n, shuffle2 seed n = shuffle seed n) :
    splitUsers shuffle2 df t seed us = splitUsers shuffle df t seed us := by
  induction us with
  | nil => rfl
  | cons u rest ih =>
    unfold splitUsers
    simp only [heq, ih]

/-- C3: on success, `split_train_test` partitions each retained user's
records (multiset equality of train ∪ test with the user's original rows,
hence disjointness with multiplicity); users below `min_ratings_per_user`
appear in neither output; every retained user present in the table has at
least one record on each side (success of the call already encodes "when
their count and test_size allow it": sklearn raises otherwise); and the
output depends on the shuffler only through the permutations it yields for
the fixed seed (determinism for a fixed seed). -/
theorem split_train_test_spec (shuffle : ℕ → ℕ → List ℕ) (df : List Rating)
    (t : ℚ) (seed minPer : ℕ) (tr te : List Rating)
    (hs : IsShuffler shuffle)
    (h : split_train_test shuffle df t seed minPer = some (tr, te)) :
    (∀ u, minPer ≤ countU df u →
      ((tr.filter (fun r => r.user == u)) ++ (te.filter (fun r => r.user == u))).Perm
        (df.filter (fun r => r.user == u))) ∧
    (∀ u, countU df u < minPer →
      (∀ r ∈ tr, r.user ≠ u) ∧ (∀ r ∈ te, r.user ≠ u)) ∧
    (∀ u, minPer ≤ countU df u → u ∈ userIds df →
      tr.filter (fun r => r.user == u) ≠ [] ∧ te.filter (fun r => r.user == u) ≠ []) ∧
    (∀ shuffle2, (∀ n, shuffle2 seed n = shuffle seed n) →
      split_train_test shuffle2 df t seed minPer = some (tr, te)) := by
  unfold split_train_test at h
  simp only [] at h
  split_ifs at h with ht husers
  have hndu : ((sortedUsers df).filter
      (fun u => decide (minPer ≤ countU df u))).Nodup :=
    (sortedUsers_nodup df).filter _
  obtain ⟨hMem, hPart, hOut⟩ := splitUsers_spec shuffle df t seed _ tr te hs hndu h
  have husersMem : ∀ u, u ∈ (sortedUsers df).filter
      (fun u => decide (minPer ≤ countU df u)) ↔
      u ∈ userIds df ∧ minPer ≤ countU df u := by
    intro u
    rw [List.mem_filter, mem_sortedUsers]
    simp
  refine ⟨?_, ?_, ?_, ?_⟩
  · intro u hge
    by_cases humem : u ∈ (sortedUsers df).filter
        (fun u => decide (minPer ≤ countU df u))
    · exact (hPart u humem).1
    · have hdfu : df.filter (fun r => r.user == u) = [] := by
        refine List.filter_eq_nil_iff.mpr ?_
        intro r hr hru
        refine humem ((husersMem u).mpr ⟨?_, hge⟩)
        exact List.mem_map.mpr ⟨r, hr, eq_of_beq hru⟩
      obtain ⟨htr0, hte0⟩ := hOut u humem
      rw [htr0, hte0, hdfu]
      exact List.Perm.refl _
  · intro u hlt
    constructor
    · intro r hr hru
      have := (hMem r (List.mem_append_left _ hr)).2
      have hcount := ((husersMem r.user).mp this).2
      rw [hru] at hcount
      omega
    · intro r hr hru
      have := (hMem r (List.mem_append_right _ hr)).2
      have hcount := ((husersMem r.user).mp this).2
      rw [hru] at hcount
      omega
  · intro u hge hpres
    exact ⟨(hPart u ((husersMem u).mpr ⟨hpres, hge⟩)).2.1,
      (hPart u ((husersMem u).mpr ⟨hpres, hge⟩)).2.2⟩
  · intro shuffle2 heq
    unfold split_train_test
    rw [if_neg (not_not_intro ht)]
    simp only []
    rw [if_neg husers, splitUsers_congr shuffle shuffle2 df t seed _ heq]
    exact h

/-- Witness for C3 on `df3` (user 1 has five records, user 2 one) with the
identity shuffler, `test_size = 1/5`, `min_ratings_per_user = 5`:
`n_test = ⌈1⌉ = 1`, test gets the row at permuted index 0 and train the
other four. -/
theorem split_train_test_spec_witness :
    IsShuffler (fun _ n => List.range n) ∧
    split_train_test (fun _ n => List.range n) df3 (1 / 5) 42 5 =
      some ([⟨1, 11, 4⟩, ⟨1, 12, 5⟩, ⟨1, 13, 2⟩, ⟨1, 14, 1⟩], [⟨1, 10, 3⟩]) ∧
    ((∀ u, 5 ≤ countU df3 u →
      ((([⟨1, 11, 4⟩, ⟨1, 12, 5⟩, ⟨1, 13, 2⟩, ⟨1, 14, 1⟩] : List Rating).filter
          (fun r => r.user == u)) ++
        (([⟨1, 10, 3⟩] : List Rating).filter (fun r => r.user == u))).Perm
        (df3.filter (fun r => r.user == u))) ∧
    (∀ u, countU df3 u < 5 →
      (∀ r ∈ ([⟨1, 11, 4⟩, ⟨1, 12, 5⟩, ⟨1, 13, 2⟩, ⟨1, 14, 1⟩] : List Rating),
        r.user ≠ u) ∧
      (∀ r ∈ ([⟨1, 10, 3⟩] : List Rating), r.user ≠ u)) ∧
    (∀ u, 5 ≤ countU df3 u → u ∈ userIds df3 →
      ([⟨1, 11, 4⟩, ⟨1, 12, 5⟩, ⟨1, 13, 2⟩, ⟨1, 14, 1⟩] : List Rating).filter
        (fun r => r.user == u) ≠ [] ∧
      ([⟨1, 10, 3⟩] : List Rating).filter (fun r => r.user == u) ≠ []) ∧
    (∀ shuffle2, (∀ n, shuffle2 42 n = (fun (_ n : ℕ) => List.range n) 42 n) →
      split_train_test shuffle2 df3 (1 / 5) 42 5 =
        some ([⟨1, 11, 4⟩, ⟨1, 12, 5⟩, ⟨1, 13, 2⟩, ⟨1, 14, 1⟩], [⟨1, 10, 3⟩]))) :=
  ⟨fun _ n => List.Perm.refl _, by with_unfolding_all decide,
    split_train_test_spec (fun _ n => List.range n) df3 (1 / 5) 42 5 _ _
      (fun _ n => List.Perm.refl _) (by with_unfolding_all decide)⟩

/-! ## Claim C6: precision@K / recall@K -/

/-- C6 (amended: for duplicate-free recommended lists): `precision_at_k`
and `recall_at_k` lie in `[0, 1]`; `precision_at_k x y 0 = 0`;
`recall_at_k x ∅ k = 0`; and for nonempty `relevant`,
`recall_at_k = |top-k ∩ relevant| / |relevant|`.  (With duplicates in the
recommended list the source counts occurrences, not set members, and
recall can exceed 1 — see the counterexample.) -/
theorem precision_recall_at_k_spec (rec : List ℕ) (rel : Finset ℕ) (k : ℕ)
    (hnd : rec.Nodup) :
    (0 ≤ precision_at_k rec rel k ∧ precision_at_k rec rel k ≤ 1) ∧
    (0 ≤ recall_at_k rec rel k ∧ recall_at_k rec rel k ≤ 1) ∧
    precision_at_k rec rel 0 = 0 ∧
    recall_at_k rec ∅ k = 0 ∧
    (rel ≠ ∅ →
      recall_at_k rec rel k = (((rec.take k).toFinset ∩ rel).card : ℚ) / rel.card) := by
  have hnd2 : ((rec.take k).filter (fun i => decide (i ∈ rel))).Nodup :=
    (hnd.sublist (List.take_sublist k rec)).filter _
  have hfin : ((rec.take k).filter (fun i => decide (i ∈ rel))).toFinset =
      (rec.take k).toFinset ∩ rel := by
    ext x
    simp [List.mem_filter]
  have hcnt : (((rec.take k).filter (fun i => decide (i ∈ rel))).length : ℚ) =
      (((rec.take k).toFinset ∩ rel).card : ℚ) := by
    rw [← hfin, List.toFinset_card_of_nodup hnd2]
  have hsub : ((rec.take k).toFinset ∩ rel) ⊆ rel := Finset.inter_subset_right
  refine ⟨?_, ⟨?_, ?_⟩, ?_, ?_, ?_⟩
  · unfold precision_at_k
    split_ifs with hk
    · norm_num
    · constructor
      · positivity
      · rw [div_le_one (by positivity)]
        have h1 : ((rec.take k).filter (fun i => decide (i ∈ rel))).length ≤ k :=
          le_trans (List.length_filter_le _ _) (List.length_take_le k rec)
        exact_mod_cast h1
  · unfold recall_at_k
    split_ifs with hk
    · norm_num
    · positivity
  · unfold recall_at_k
    split_ifs with hk
    · norm_num
    · rw [div_le_one (by positivity), hcnt]
      exact_mod_cast Finset.card_le_card hsub
  · simp [precision_at_k]
  · simp [recall_at_k]
  · intro hne
    unfold recall_at_k
    rw [if_neg (by simpa [Finset.card_eq_zero] using hne), hcnt]

/-- Witness for C6 at `rec = [1, 2]`, `rel = {2, 3}`, `k = 1`. -/
theorem precision_recall_at_k_spec_witness :
    ([1, 2] : List ℕ).Nodup ∧
    ((0 ≤ precision_at_k [1, 2] {2, 3} 1 ∧ precision_at_k [1, 2] {2, 3} 1 ≤ 1) ∧
    (0 ≤ recall_at_k [1, 2] {2, 3} 1 ∧ recall_at_k [1, 2] {2, 3} 1 ≤ 1) ∧
    precision_at_k [1, 2] {2, 3} 0 = 0 ∧
    recall_at_k [1, 2] ∅ 1 = 0 ∧
    (({2, 3} : Finset ℕ) ≠ ∅ →
      recall_at_k [1, 2] {2, 3} 1 =
        ((([1, 2].take 1).toFinset ∩ {2, 3}).card : ℚ) / ({2, 3} : Finset ℕ).card)) :=
  ⟨by decide, precision_recall_at_k_spec [1, 2] {2, 3} 1 (by decide)⟩

/-- C6 as stated is false: a recommended list with a duplicate makes
`recall_at_k` exceed 1 (the source counts list occurrences, not set
intersection): `recall_at_k [0, 0] {0} 2 = 2`. -/
theorem recall_at_k_counterexample :
    recall_at_k [0, 0] {0} 2 = 2 ∧ ¬ recall_at_k [0, 0] {0} 2 ≤ 1 ∧
    recall_at_k [0, 0] {0} 2 ≠
      ((([0, 0].take 2).toFinset ∩ {0}).card : ℚ) / ({0} : Finset ℕ).card := by
  refine ⟨?_, ?_, ?_⟩ <;> with_unfolding_all decide

/-! ## Claim C4: unknown-user error -/

/-- C4: `recommend_for_user` fails with the unknown-user `ValueError` iff
`user_id` has no rating records in the table; a present user never gets
this error (an invalid normalization method or a pivot row dropped as
all-NaN raise distinct errors instead). -/
theorem recommend_unknown_user_iff (sim : ℕ → ℕ → ℚ) (stdOf : ℕ → ℚ)
    (df : List Rating) (user n : ℕ) (minSim : ℚ) (useNorm : Bool) (method : String) :
    recommend_for_user sim stdOf df user n minSim useNorm method =
      .error .unknownUser ↔ user ∉ userIds df := by
  unfold recommend_for_user
  by_cases h1 : user ∉ userIds df
  · simp [h1]
  · rw [if_neg h1]
    simp only [h1, iff_false]
    split_ifs <;> simp

/-! ## Claim C5: normalization round-trip -/

/-- C5 (amended): the round-trip
`denormalize(normalize(r), user_mean, user_std, method) = r` holds exactly
for `mean_center` (all users) and for `z_score` when the user has at least
two ratings; for `z_score` a constant rating vector has std 0, which the
source replaces by 1.  (For a user with exactly one rating, pandas' sample
std is NaN, not 0, the normalized value is NaN, and the round-trip fails —
see the counterexample.) -/
theorem normalize_denormalize_roundtrip (stdOf : ℕ → ℚ) (df : List Rating)
    (u : ℕ) (r : ℚ) (method : String)
    (hstd : StdCompat df stdOf)
    (hmem : r ∈ ratingsOf df u)
    (hm : method = "mean_center" ∨ (method = "z_score" ∧ 2 ≤ countU df u)) :
    denormalize_rating (normVal stdOf df method u r) (meanU df u) (stdOf u) method =
      some r := by
  rcases hm with rfl | ⟨rfl, h2⟩
  · simp [normVal, denormalize_rating]
  · have hu : u ∈ userIds df := mem_userIds_of_ratings hmem
    obtain ⟨hpos, hsq⟩ := hstd u hu h2
    have hlt : ¬ countU df u < 2 := by omega
    simp only [normVal, denormalize_rating, String.reduceEq, if_false, if_true, reduceIte]
    rw [if_neg hlt]
    by_cases hz : stdOf u = 0
    · have hvar : varU df u = 0 := by rw [← hsq, hz]; ring
      have hrm : r = meanU df u := eq_mean_of_var_zero h2 hvar r hmem
      simp [hz, hrm]
    · rw [if_neg hz]
      have hcancel : (r - meanU df u) / stdOf u * stdOf u + meanU df u = r := by
        field_simp
      simp [hcancel]

/-- Witness for C5: a two-rating constant user under `z_score` (std 0,
replaced by 1) round-trips exactly. -/
theorem normalize_denormalize_roundtrip_witness :
    StdCompat [⟨1, 10, 3⟩, ⟨1, 11, 3⟩] (fun _ => 0) ∧
    (3 : ℚ) ∈ ratingsOf [⟨1, 10, 3⟩, ⟨1, 11, 3⟩] 1 ∧
    denormalize_rating (normVal (fun _ => 0) [⟨1, 10, 3⟩, ⟨1, 11, 3⟩] "z_score" 1 3)
      (meanU [⟨1, 10, 3⟩, ⟨1, 11, 3⟩] 1) 0 "z_score" = some 3 :=
  ⟨by with_unfolding_all decide, by decide,
    normalize_denormalize_roundtrip (fun _ => 0) _ 1 3 "z_score"
      (by with_unfolding_all decide) (by decide) (Or.inr ⟨rfl, by decide⟩)⟩

/-- C5 as stated is false for a user with exactly one rating under
`z_score`: pandas' `ddof = 1` std of a single sample is NaN (not 0), so the
normalized value is NaN and the round-trip returns NaN instead of `r`.
The zero std oracle is vacuously faithful here (`StdCompat` constrains only
users with two or more ratings). -/
theorem normalize_denormalize_roundtrip_counterexample :
    StdCompat [⟨1, 10, 3⟩] (fun _ => 0) ∧
    (3 : ℚ) ∈ ratingsOf [⟨1, 10, 3⟩] 1 ∧
    denormalize_rating (normVal (fun _ => 0) [⟨1, 10, 3⟩] "z_score" 1 3)
      (meanU [⟨1, 10, 3⟩] 1) 0 "z_score" = none := by
  refine ⟨by with_unfolding_all decide, by decide, by with_unfolding_all decide⟩

end RecSys
